import Mathlib

/-!
# godump: watchdog configuration, supervision and the hanging-goroutine tracker

A shallow embedding of `godump.go`.

Conventions of the embedding:

* A Go pointer is an `Option`: `none` is `nil`.
* A Go function that may dereference a `nil` pointer returns in `Option`:
  `none` is the nil-pointer panic, `some v` is a normal return of `v`.
* A Go `error` is an `Option String`: `none` is the `nil` error.
* `int` and `uint64` values are `Int` and `Nat`; `time.Time` and
  `time.Duration` are `Int` nanoseconds, with the `int64` wrap-around and the
  saturation of `Time.Sub` written out where the code computes with them.
-/

namespace GoDump

/-! ## float64 -/

/-- A `float64` value, as far as the comparisons of the code can tell: a NaN,
an infinity, or a finite value (negative zero is `fin 0`, to which it compares
equal). -/
inductive Float64 where
  | nan : Float64
  | negInf : Float64
  | posInf : Float64
  | fin (q : ℚ) : Float64
deriving DecidableEq

namespace Float64

/-- Go's `x == y` on `float64`: false as soon as one side is a NaN. -/
def eq : Float64 → Float64 → Bool
  | nan, _ => false
  | _, nan => false
  | negInf, negInf => true
  | posInf, posInf => true
  | fin a, fin b => decide (a = b)
  | _, _ => false

/-- Go's `x > y` on `float64`: false as soon as one side is a NaN. -/
def gt : Float64 → Float64 → Bool
  | nan, _ => false
  | _, nan => false
  | posInf, posInf => false
  | posInf, _ => true
  | _, posInf => false
  | negInf, _ => false
  | fin _, negInf => true
  | fin a, fin b => decide (b < a)

/-- Go's `x <= y` on `float64`: false as soon as one side is a NaN. -/
def le : Float64 → Float64 → Bool
  | nan, _ => false
  | _, nan => false
  | negInf, _ => true
  | _, posInf => true
  | posInf, _ => false
  | fin _, negInf => false
  | fin a, fin b => decide (a ≤ b)

/-- The constant `0`. -/
def zero : Float64 := fin 0

/-- The constant `1`. -/
def one : Float64 := fin 1

end Float64

/-! ## Configuration -/

/-- The struct `DumpHeapConfigs`. -/
structure DumpHeapConfigs where
  HeapThresholdBytes : Nat
  HeapThresholdPercentage : Float64
  HeapDumpPrefix : Option String
deriving DecidableEq

/-- The struct `DumpGoroutineConfigs`. -/
structure DumpGoroutineConfigs where
  GoroutineThreshold : Int
  GoroutineHangingTimeMs : Int
  GoroutineDumpPrefix : Option String
deriving DecidableEq

/-- The struct `GoDumpConfigs`; the two blocks are pointers. -/
structure GoDumpConfigs where
  GoDumpHeap : Bool
  GoDumpGoroutine : Bool
  GoDumpPath : String
  HeapDumpConfigs : Option DumpHeapConfigs
  GoroutineDumpConfigs : Option DumpGoroutineConfigs
  WatchdogIntervalMs : Int
deriving DecidableEq

/-- The struct `GoDumpService`: it holds the pointer to the configuration it
was built from. -/
structure GoDumpService where
  configs : GoDumpConfigs
deriving DecidableEq

/-- The result of `NewGoDumpService`: the service pointer and the error. -/
abbrev NewResult := Option GoDumpService × Option String

/-- The checks of `NewGoDumpService` on the heap block (lines 325-331): the
error to return, if any. Reading a field of the block dereferences the
pointer. -/
def heapChecks (configs : GoDumpConfigs) : Option (Option String) :=
  if configs.GoDumpHeap then
    match configs.HeapDumpConfigs with
    | none => none
    | some h =>
      if h.HeapThresholdBytes = 0 ∧ Float64.eq h.HeapThresholdPercentage Float64.zero then
        some (some "the variable 'HeapThresholdBytes' and 'HeapThresholdPercentage' cannot be both 0")
      else if Float64.gt h.HeapThresholdPercentage Float64.one then
        some (some "the variable 'HeapThresholdPercentage' cannot be greater than 1")
      else some none
  else some none

/-- The checks of `NewGoDumpService` on the goroutine block (lines 332-336). -/
def goroutineChecks (configs : GoDumpConfigs) : Option (Option String) :=
  if configs.GoDumpGoroutine then
    match configs.GoroutineDumpConfigs with
    | none => none
    | some g =>
      if g.GoroutineThreshold = 0 ∧ g.GoroutineHangingTimeMs = 0 then
        some (some "the variable 'GoroutineThreshold' and GoroutineHangingTimeMs' cannot be both 0")
      else some none
  else some none

/-- The function `NewGoDumpService`. The outer `Option` is `none` when the
body panics on a nil pointer. -/
def NewGoDumpService (configs : Option GoDumpConfigs) : Option NewResult :=
  match configs with
  | none => some (none, some "configs cannot be nil")
  | some c =>
    if c.GoDumpHeap ∧ c.HeapDumpConfigs = none then
      some (none, some "the variable 'HeapDumpConfigs' cannot be nil when GoDumpHeap is true")
    else if c.GoDumpGoroutine ∧ c.GoroutineDumpConfigs = none then
      some (none, some "the variable 'GoroutineDumpConfigs' cannot be nil when GoDumpGoroutine is true")
    else
      match heapChecks c with
      | none => none
      | some (some e) => some (none, some e)
      | some none =>
        match goroutineChecks c with
        | none => none
        | some (some e) => some (none, some e)
        | some none =>
          if c.WatchdogIntervalMs = 0 then
            some (none, some "the variable 'WatchdogIntervalMs' cannot be 0")
          else if c.GoDumpPath = "" then
            some (none, some "the variable 'GoDumpPath' cannot be empty")
          else some (some { configs := c }, none)

/-! ## Start -/

/-- The fields of `syscall.Sysinfo_t` that `getAvailableMemory` reads. -/
structure Sysinfo_t where
  Totalram : Nat
  Unit : Nat
deriving DecidableEq

/-- The function `getAvailableMemory`; its argument is what `syscall.Sysinfo`
gave: an error, or the filled structure. The product is a `uint64` product. -/
def getAvailableMemory (sysinfo : Except String Sysinfo_t) : Nat × Option String :=
  match sysinfo with
  | .error err => (0, some err)
  | .ok info => ((info.Totalram * info.Unit) % 2 ^ 64, none)

/-- A goroutine started by `Start` with a `go` statement. -/
inductive Watcher where
  | WatchHeapBytes : Watcher
  | WatchHeapPercentage (AvailableSystemMemory : Nat) : Watcher
  | WatchGoroutines : Watcher
  | WatchGoroutinesHanging : Watcher
deriving DecidableEq

/-- Lines 354-361 of `Start`: the heap watchers it starts, in order. -/
def startHeap (configs : GoDumpConfigs) (AvailableSystemMemory : Nat) : Option (List Watcher) :=
  if configs.GoDumpHeap then
    match configs.HeapDumpConfigs with
    | none => none
    | some h =>
      some ((if h.HeapThresholdBytes > 0 then [Watcher.WatchHeapBytes] else []) ++
        (if Float64.gt h.HeapThresholdPercentage Float64.zero then
          [Watcher.WatchHeapPercentage AvailableSystemMemory] else []))
  else some []

/-- Lines 362-369 of `Start`: the goroutine watchers it starts, in order. -/
def startGoroutine (configs : GoDumpConfigs) : Option (List Watcher) :=
  if configs.GoDumpGoroutine then
    match configs.GoroutineDumpConfigs with
    | none => none
    | some g =>
      some ((if g.GoroutineThreshold > 0 then [Watcher.WatchGoroutines] else []) ++
        (if g.GoroutineHangingTimeMs > 0 then [Watcher.WatchGoroutinesHanging] else []))
  else some []

/-- The method `Start`: the watchers it has started when it returns, and the
error it returns. `none` is a nil-pointer panic. -/
def GoDumpService.Start (gd : GoDumpService) (sysinfo : Except String Sysinfo_t) :
    Option (List Watcher × Option String) :=
  match getAvailableMemory sysinfo with
  | (_, some err) => some ([], some err)
  | (AvailableSystemMemory, none) =>
    match startHeap gd.configs AvailableSystemMemory with
    | none => none
    | some hw =>
      match startGoroutine gd.configs with
      | none => none
      | some gw => some (hw ++ gw, none)

/-! ## Dump files -/

/-- The scan of `strings.Replace(s, old, new, -1)` for a non-empty `old`, on
the characters of `s`: the first argument counts the characters of a matched
`old` that are still to be skipped. -/
def replaceScan (old new : List Char) : Nat → List Char → List Char
  | _, [] => []
  | k + 1, _ :: rest => replaceScan old new k rest
  | 0, c :: rest =>
    if old.isPrefixOf (c :: rest) then new ++ replaceScan old new (old.length - 1) rest
    else c :: replaceScan old new 0 rest

/-- The call `strings.Replace(s, old, new, -1)` for a non-empty `old`: every
non-overlapping occurrence of `old`, found from left to right, is replaced. -/
def stringsReplace (s old new : String) : String :=
  String.mk (replaceScan old.data new.data 0 s.data)

/-- The file name computed by `TakeHeapDump` (lines 45-51); `now` is
`time.Now().Format("2006-01-02T15:04:05")`. -/
def HeapDumpFile (goDumpConfigs : GoDumpConfigs) (now : String) : Option String :=
  match goDumpConfigs.HeapDumpConfigs with
  | none => none
  | some h =>
    let pfx := match h.HeapDumpPrefix with
      | none => "heapdump"
      | some p => p
    some (stringsReplace (goDumpConfigs.GoDumpPath ++ "/" ++ pfx ++ now ++ ".hprof") "//" "/")

/-! ## Time -/

/-- A `time.Time` taken by `time.Now()`: its monotonic clock reading, in
nanoseconds. -/
abbrev Time := Int

/-- A `time.Duration`: an `int64` count of nanoseconds. -/
abbrev Duration := Int

/-- The value an `int64` computation leaves: `x` wrapped around into
`[-2^63, 2^63)`. -/
def wrapInt64 (x : Int) : Int := (x + 2 ^ 63) % 2 ^ 64 - 2 ^ 63

/-- The constant `time.Millisecond`. -/
def Millisecond : Duration := 1000000

/-- The smallest `time.Duration`. -/
def minDuration : Duration := -(2 ^ 63)

/-- The largest `time.Duration`. -/
def maxDuration : Duration := 2 ^ 63 - 1

/-- The method `Time.Sub` of the standard library on two monotonic readings:
the difference `t - u`, or the minimum or maximum duration when it does not fit
an `int64`. -/
def Time.Sub (t u : Time) : Duration :=
  if t - u < minDuration then minDuration
  else if t - u > maxDuration then maxDuration
  else t - u

/-- The expression `time.Duration(ms) * time.Millisecond`: an `int64`
product. -/
def durationMs (ms : Int) : Duration := wrapInt64 (ms * Millisecond)

/-! ## The hanging-goroutine records -/

/-- The array type `[32]uintptr`. -/
abbrev StackArray := Mathlib.Vector Nat 32

/-- The struct `runtime.StackRecord`. -/
structure StackRecord where
  Stack0 : StackArray
deriving DecidableEq

/-- The zero value `runtime.StackRecord{}`. -/
def StackRecord.zero : StackRecord := { Stack0 := Mathlib.Vector.replicate 32 0 }

/-- The record the runtime fills for a goroutine whose call stack holds the
return addresses `pcs`: the first 32 of them, padded with zeros. -/
def StackRecord.ofPCs (pcs : List Nat) : StackRecord :=
  { Stack0 := ⟨(pcs ++ List.replicate 32 0).take 32, by simp⟩ }

/-- The struct `GoStackAnalyzerRecord`. -/
structure GoStackAnalyzerRecord where
  LastStacks : StackRecord
  CurrentStacks : StackRecord
  CurrentMesure : Time
  LastChange : Time
deriving DecidableEq

/-- The function `compareStacks`: `reflect.DeepEqual` on two stack records. -/
def compareStacks (stack1 stack2 : StackRecord) : Bool := decide (stack1 = stack2)

/-- The type `map[[32]uintptr]*GoStackAnalyzerRecord`: its entries, in the
order a `range` over the map visits them. -/
abbrev Records := List (StackArray × GoStackAnalyzerRecord)

/-- The map lookup `m[goid]` with its `ok` result. -/
def Records.get (m : Records) (goid : StackArray) : Option GoStackAnalyzerRecord :=
  match m with
  | [] => none
  | (k, r) :: rest => if k = goid then some r else Records.get rest goid

/-- The statement `delete(m, goid)`. -/
def Records.delete (m : Records) (goid : StackArray) : Records :=
  m.filter (fun e => decide (e.1 ≠ goid))

/-- The record of lines 262-267, stored for a goroutine that is not in the
map. -/
def insertedRecord (currentTime : Time) (stack : StackRecord) : GoStackAnalyzerRecord :=
  { LastStacks := StackRecord.zero, CurrentStacks := stack,
    CurrentMesure := currentTime, LastChange := currentTime }

/-- The record after lines 270-272, for a goroutine that is in the map. -/
def updatedRecord (currentTime : Time) (stack : StackRecord)
    (record : GoStackAnalyzerRecord) : GoStackAnalyzerRecord :=
  { record with LastStacks := record.CurrentStacks, CurrentStacks := stack,
                CurrentMesure := currentTime }

/-- One turn of the loop of lines 254-275, without its last line: the map
after goroutine `stack` has been looked at. -/
def observe (currentTime : Time) (m : Records) (stack : StackRecord) : Records :=
  let goid := stack.Stack0
  match Records.get m goid with
  | none => m ++ [(goid, insertedRecord currentTime stack)]
  | some _ =>
    m.map (fun e => if e.1 = goid then (e.1, updatedRecord currentTime stack e.2) else e)

/-- The loop of lines 254-275 on the map: every sampled goroutine is looked
at, in order. -/
def observeAll (currentTime : Time) (m : Records) (goroutines : List StackRecord) : Records :=
  goroutines.foldl (observe currentTime) m

/-- The keys of `idsPresentOnThisRun` after the loop of lines 254-275. -/
def idsPresentOnThisRun (goroutines : List StackRecord) : List StackArray :=
  goroutines.map (fun stack => stack.Stack0)

/-- The slice `toDelete` after the loop of lines 278-283. -/
def toDelete (m : Records) (ids : List StackArray) : List StackArray :=
  (m.filter (fun e => decide (e.1 ∉ ids))).map Prod.fst

/-- The loop of lines 285-287. -/
def deleteAll (m : Records) (goids : List StackArray) : Records :=
  goids.foldl Records.delete m

/-- The loop of lines 290-301: the map after it and the slice
`stacksRemainedTheSameForTooLong`. Reading the dwell time dereferences the
goroutine block. -/
def classify (configs : GoDumpConfigs) (currentTime : Time) :
    Records → Option (Records × List GoStackAnalyzerRecord)
  | [] => some ([], [])
  | (goid, record) :: rest =>
    if compareStacks record.LastStacks record.CurrentStacks then
      match configs.GoroutineDumpConfigs with
      | none => none
      | some g =>
        match classify configs currentTime rest with
        | none => none
        | some (m, tooLong) =>
          if Time.Sub currentTime record.LastChange > durationMs g.GoroutineHangingTimeMs then
            some ((goid, record) :: m, record :: tooLong)
          else some ((goid, record) :: m, tooLong)
    else
      match classify configs currentTime rest with
      | none => none
      | some (m, tooLong) => some ((goid, { record with LastChange := currentTime }) :: m, tooLong)

/-! ## The goroutine dump -/

/-- What the runtime hands to one run of `TakeGoroutineDump`. -/
structure DumpEnv where
  /-- What `time.Now().Format("2006-01-02T15:04:05")` gives on line 67. -/
  nowFile : String
  /-- What `time.Now().Format("2006-01-02T15:04:05")` gives on line 81. -/
  nowBody : String
  /-- What `string(buf[:n])` is after `runtime.Stack(buf, false)`. -/
  stack : String
  /-- What `runtime.NumGoroutine()` returns. -/
  NumGoroutine : Int
  /-- What `pprof.Lookup("goroutine").WriteTo(f, 1)` writes. -/
  profile : String
  /-- The method `Format("2006-01-02T15:04:05")` on a time. -/
  format : Time → String

/-- The file name computed by `TakeGoroutineDump` (lines 63-69). -/
def GoroutineDumpFile (goDumpConfigs : GoDumpConfigs) (now : String) : Option String :=
  match goDumpConfigs.GoroutineDumpConfigs with
  | none => none
  | some g =>
    let pfx := match g.GoroutineDumpPrefix with
      | none => "goroutinedump"
      | some p => p
    some (stringsReplace (goDumpConfigs.GoDumpPath ++ "/" ++ pfx ++ now ++ ".txt") "//" "/")

/-- The string `identifierString` of lines 105-115: the 32 words of the stack
as `0x` and lower-case hexadecimal digits, joined with commas. -/
def identifierString (stack : StackRecord) : String :=
  String.intercalate ","
    (stack.Stack0.toList.map (fun pc => "0x" ++ String.mk (Nat.toDigits 16 pc)))

/-- The writes of lines 80-95, in order. -/
def dumpHeader (env : DumpEnv) : List String :=
  ["GoRoutine Dump\n---\n", "Time: " ++ env.nowBody ++ "\n", "---\n\n", "Stack Trace:\n"] ++
  (if env.stack.length > 0 then [env.stack ++ "\n"] else []) ++
  ["---\n\n", "Number of Goroutines: " ++ toString env.NumGoroutine ++ "\n", "Goroutines:\n",
   env.profile]

/-- The writes of lines 97-122, in order: the section on hanging
goroutines. -/
def hangingSection (g : DumpGoroutineConfigs) (env : DumpEnv)
    (hangingStacks : List GoStackAnalyzerRecord) : List String :=
  if hangingStacks.length > 0 then
    ["---\n\n", "\nHanging Goroutines Detected:\n",
     "Number of Hanging Goroutines: " ++ toString hangingStacks.length ++ "\n",
     "Considered Hanging time (ms): " ++ toString g.GoroutineHangingTimeMs ++ "\n"] ++
    hangingStacks.flatMap (fun stack =>
      [" * Last Change: " ++ env.format stack.LastChange,
       " * Last Mesure: " ++ env.format stack.CurrentMesure,
       " (Stack) -> [" ++ identifierString stack.LastStacks ++ "]\n"])
  else []

/-- The function `TakeGoroutineDump`: the file it creates and the strings it
writes to it, in order, when the file can be created. -/
def TakeGoroutineDump (goDumpConfigs : GoDumpConfigs) (env : DumpEnv)
    (hangingStacks : List GoStackAnalyzerRecord) : Option (String × List String) :=
  match GoroutineDumpFile goDumpConfigs env.nowFile, goDumpConfigs.GoroutineDumpConfigs with
  | some file, some g => some (file, dumpHeader env ++ hangingSection g env hangingStacks)
  | _, _ => none

/-! ## The watchers

A watcher is a loop around a `select`: it returns when the stop channel
delivers, and runs its body each time the interval timer fires. A run of the
loop is driven by the list of what its successive `select`s received, a tick
carrying what the runtime returned to the body. The calls to the two dump
functions are what a run leaves behind. -/

/-- A call of one of the dump functions on the configuration of the
service. -/
inductive Call where
  | TakeHeapDump : Call
  | TakeGoroutineDump (hangingStacks : List GoStackAnalyzerRecord) : Call
deriving DecidableEq

/-- What one `select` of a watcher receives. -/
inductive Select (α : Type) where
  | stop : Select α
  | tick (sample : α) : Select α

/-- The body of the tick case of `WatchHeapBytes` (lines 156-166);
`Alloc` is `CurrentMemStats.Alloc`. -/
def heapBytesTick (gd : GoDumpService) (Alloc : Nat) : Option (List Call) :=
  match gd.configs.HeapDumpConfigs with
  | none => none
  | some h => if Alloc > h.HeapThresholdBytes then some [Call.TakeHeapDump] else some []

/-- The function `WatchHeapBytes`: the dump calls it makes, in order. -/
def WatchHeapBytes (gd : GoDumpService) : List (Select Nat) → Option (List Call)
  | [] => some []
  | Select.stop :: _ => some []
  | Select.tick Alloc :: rest =>
    match heapBytesTick gd Alloc with
    | none => none
    | some calls =>
      match WatchHeapBytes gd rest with
      | none => none
      | some later => some (calls ++ later)

/-- The body of the tick case of `WatchGoroutines` (lines 209-214);
`NumGoroutine` is what `runtime.NumGoroutine()` returns. -/
def goroutinesTick (gd : GoDumpService) (NumGoroutine : Int) : Option (List Call) :=
  match gd.configs.GoroutineDumpConfigs with
  | none => none
  | some g =>
    if NumGoroutine > g.GoroutineThreshold then some [Call.TakeGoroutineDump []] else some []

/-- The function `WatchGoroutines`: the dump calls it makes, in order. -/
def WatchGoroutines (gd : GoDumpService) : List (Select Int) → Option (List Call)
  | [] => some []
  | Select.stop :: _ => some []
  | Select.tick NumGoroutine :: rest =>
    match goroutinesTick gd NumGoroutine with
    | none => none
    | some calls =>
      match WatchGoroutines gd rest with
      | none => none
      | some later => some (calls ++ later)

/-- What the runtime returns to one tick of `WatchGoroutinesHanging`: the
first `n` entries of `goroutines` when `runtime.GoroutineProfile` reports `ok`
(`none` when it does not), and the `time.Now()` read after it. -/
structure HangingSample where
  goroutines : Option (List StackRecord)
  currentTime : Time

/-- The body of the tick case of `WatchGoroutinesHanging` after a successful
profile (lines 252-305): the map after it and the dump call it makes. -/
def hangingTick (gd : GoDumpService) (m : Records) (goroutines : List StackRecord)
    (currentTime : Time) : Option (Records × List Call) :=
  let m1 := observeAll currentTime m goroutines
  let m2 := deleteAll m1 (toDelete m1 (idsPresentOnThisRun goroutines))
  match classify gd.configs currentTime m2 with
  | none => none
  | some (m3, stacksRemainedTheSameForTooLong) =>
    if stacksRemainedTheSameForTooLong.length > 0 then
      some (m3, [Call.TakeGoroutineDump stacksRemainedTheSameForTooLong])
    else some (m3, [])

/-- The body of the tick case of `WatchGoroutinesHanging` (lines 238-305):
a tick whose profile is not `ok` is skipped. -/
def hangingStep (gd : GoDumpService) (m : Records) (sample : HangingSample) :
    Option (Records × List Call) :=
  match sample.goroutines with
  | none => some (m, [])
  | some goroutines => hangingTick gd m goroutines sample.currentTime

/-- The loop of `WatchGoroutinesHanging` from the map `m`: the map when the
events end and the dump calls made, in order. -/
def hangingLoop (gd : GoDumpService) : Records → List (Select HangingSample) →
    Option (Records × List Call)
  | m, [] => some (m, [])
  | m, Select.stop :: _ => some (m, [])
  | m, Select.tick sample :: rest =>
    match hangingStep gd m sample with
    | none => none
    | some (m1, calls) =>
      match hangingLoop gd m1 rest with
      | none => none
      | some (m2, later) => some (m2, calls ++ later)

/-- The function `WatchGoroutinesHanging`: the loop, from the empty map. -/
def WatchGoroutinesHanging (gd : GoDumpService) (events : List (Select HangingSample)) :
    Option (Records × List Call) :=
  hangingLoop gd [] events

/-! ## Configurations used as examples -/

/-- The test case `Bad heapdump HeapThresholdPercentage > 1` of `TestBadInput`. -/
def badPercentageConfig : GoDumpConfigs :=
  { GoDumpHeap := true, GoDumpGoroutine := false, GoDumpPath := "./_test",
    HeapDumpConfigs := some { HeapThresholdBytes := 0,
                              HeapThresholdPercentage := Float64.fin (11 / 10),
                              HeapDumpPrefix := none },
    GoroutineDumpConfigs := none, WatchdogIntervalMs := 1000 }

/-- The configuration of `TestHeapdumpBytesTriggerFile`: a threshold of 25 MiB
on the heap, sampled every five seconds. -/
def heapBytesConfig : GoDumpConfigs :=
  { GoDumpHeap := true, GoDumpGoroutine := false, GoDumpPath := "./_test",
    HeapDumpConfigs := some { HeapThresholdBytes := 1024 * 1024 * 25,
                              HeapThresholdPercentage := Float64.fin 0,
                              HeapDumpPrefix := none },
    GoroutineDumpConfigs := none, WatchdogIntervalMs := 5000 }

/-- A configuration with a negative sampling interval and no monitor
enabled. -/
def negativeIntervalConfig : GoDumpConfigs :=
  { GoDumpHeap := false, GoDumpGoroutine := false, GoDumpPath := "./_test",
    HeapDumpConfigs := none, GoroutineDumpConfigs := none, WatchdogIntervalMs := -1 }

/-- A configuration with every monitor on: the thresholds of the tests
(25 MiB, 5 % of the memory, 15 goroutines, a dwell time of ten seconds). -/
def fullConfig : GoDumpConfigs :=
  { GoDumpHeap := true, GoDumpGoroutine := true, GoDumpPath := "./_test",
    HeapDumpConfigs := some { HeapThresholdBytes := 1024 * 1024 * 25,
                              HeapThresholdPercentage := Float64.fin (1 / 20),
                              HeapDumpPrefix := none },
    GoroutineDumpConfigs := some { GoroutineThreshold := 15,
                                   GoroutineHangingTimeMs := 10000,
                                   GoroutineDumpPrefix := none },
    WatchdogIntervalMs := 1000 }

/-- A machine with 4 GiB of memory, reported in units of one byte. -/
def fourGiB : Sysinfo_t := { Totalram := 4294967296, Unit := 1 }

/-- The configuration of `TestGoroutineTriggerFile`: a threshold of 15
goroutines, sampled every second. -/
def goroutineCountConfig : GoDumpConfigs :=
  { GoDumpHeap := false, GoDumpGoroutine := true, GoDumpPath := "./_test",
    HeapDumpConfigs := none,
    GoroutineDumpConfigs := some { GoroutineThreshold := 15, GoroutineHangingTimeMs := 0,
                                   GoroutineDumpPrefix := none },
    WatchdogIntervalMs := 1000 }

/-- A heap configuration whose dump path ends in two slashes. -/
def doubleSlashConfig : GoDumpConfigs :=
  { GoDumpHeap := true, GoDumpGoroutine := false, GoDumpPath := "/tmp//",
    HeapDumpConfigs := some { HeapThresholdBytes := 1024 * 1024 * 25,
                              HeapThresholdPercentage := Float64.fin 0,
                              HeapDumpPrefix := none },
    GoroutineDumpConfigs := none, WatchdogIntervalMs := 5000 }

/-! ## The run of a fingerprint

What the claims on the hanging tracker call the unbroken run of samples that
hold a fingerprint, read off the samples alone. -/

/-- The time the current run of `fp` started at, after one more tick: a tick
whose profile failed changes nothing; a sample without `fp` ends the run; a
sample with `fp` continues the run, or starts one at its own time. -/
def runStep (fp : StackArray) (start : Option Time) (sample : HangingSample) : Option Time :=
  match sample.goroutines with
  | none => start
  | some goroutines =>
    if fp ∈ idsPresentOnThisRun goroutines then some (start.getD sample.currentTime) else none

/-- The time of the first tick of the unbroken run of samples holding `fp`
that ends at the last successful tick of `ticks`; `none` when that sample
does not hold `fp`, or when there is none. -/
def runStart (fp : StackArray) (ticks : List HangingSample) : Option Time :=
  ticks.foldl (runStep fp) none

/-! ## The tick of the hanging tracker, key by key -/

/-- What the loop of lines 254-275 does to the entry of the key `k`, for one
goroutine. -/
def observeKey (currentTime : Time) (k : StackArray) (entry : Option GoStackAnalyzerRecord)
    (stack : StackRecord) : Option GoStackAnalyzerRecord :=
  if stack.Stack0 = k then
    match entry with
    | none => some (insertedRecord currentTime stack)
    | some record => some (updatedRecord currentTime stack record)
  else entry

/-- What the loop of lines 290-301 does to a record. -/
def markChange (currentTime : Time) (record : GoStackAnalyzerRecord) : GoStackAnalyzerRecord :=
  if compareStacks record.LastStacks record.CurrentStacks then record
  else { record with LastChange := currentTime }

/-- Whether the loop of lines 290-301 appends a record to
`stacksRemainedTheSameForTooLong`, for the dwell time `dwell`. -/
def tooLong (currentTime : Time) (dwell : Duration) (record : GoStackAnalyzerRecord) : Bool :=
  compareStacks record.LastStacks record.CurrentStacks &&
    decide (Time.Sub currentTime record.LastChange > dwell)

/-- What holds of the map of the hanging tracker after the ticks `ticks`, from
the empty map: no key is stored twice; a record is stored under the
fingerprint it holds as `CurrentStacks`, and its `LastChange` is the start of
the current run of that fingerprint; a fingerprint with no record has no
current run. -/
def TrackerInv (m : Records) (ticks : List HangingSample) : Prop :=
  (m.map Prod.fst).Nodup ∧
  (∀ k r, Records.get m k = some r →
    r.CurrentStacks.Stack0 = k ∧ runStart k ticks = some r.LastChange) ∧
  (∀ k, Records.get m k = none → runStart k ticks = none)

/-! ## Runs of the hanging tracker used as examples -/

/-- The configuration of `TestGoroutineHangingTriggerFile`: a dwell time of ten
seconds, sampled every five seconds. -/
def hangingConfig : GoDumpConfigs :=
  { GoDumpHeap := false, GoDumpGoroutine := true, GoDumpPath := "./_test",
    HeapDumpConfigs := none,
    GoroutineDumpConfigs := some { GoroutineThreshold := 0, GoroutineHangingTimeMs := 10000,
                                   GoroutineDumpPrefix := none },
    WatchdogIntervalMs := 5000 }

/-- A configuration whose sampling interval equals its dwell time: one second
each. -/
def equalDwellConfig : GoDumpConfigs :=
  { GoDumpHeap := false, GoDumpGoroutine := true, GoDumpPath := "./_test",
    HeapDumpConfigs := none,
    GoroutineDumpConfigs := some { GoroutineThreshold := 0, GoroutineHangingTimeMs := 1000,
                                   GoroutineDumpPrefix := none },
    WatchdogIntervalMs := 1000 }

/-- A goroutine block whose dwell time, in nanoseconds, is just above the
largest `time.Duration`. -/
def overflowDwell : DumpGoroutineConfigs :=
  { GoroutineThreshold := 0, GoroutineHangingTimeMs := 9223372036855,
    GoroutineDumpPrefix := none }

/-- A configuration with that dwell time, sampled every second. -/
def overflowDwellConfig : GoDumpConfigs :=
  { GoDumpHeap := false, GoDumpGoroutine := true, GoDumpPath := "./_test",
    HeapDumpConfigs := none, GoroutineDumpConfigs := some overflowDwell,
    WatchdogIntervalMs := 1000 }

/-- A sleeping goroutine, as the profile shows it: three return addresses. -/
def sleeperA : StackRecord := StackRecord.ofPCs [4521, 4377, 8086]

/-- Another sleeping goroutine, with a different stack. -/
def sleeperB : StackRecord := StackRecord.ofPCs [4521, 4377, 9001]

/-! ## The timestamps of the records -/

/-- What holds of the timestamps of the records after a tick at the time `T`:
every record last changed no later than it was last sampled, and was last
sampled no later than `T`. -/
def TimeInv (m : Records) (T : Time) : Prop :=
  ∀ k r, Records.get m k = some r → r.LastChange ≤ r.CurrentMesure ∧ r.CurrentMesure ≤ T

/-! ## Configurations with a negative threshold -/

/-- A configuration with goroutine monitoring on, a goroutine threshold of -1
and no dwell time. -/
def negativeThresholdConfig : GoDumpConfigs :=
  { GoDumpHeap := false, GoDumpGoroutine := true, GoDumpPath := "./_test",
    HeapDumpConfigs := none,
    GoroutineDumpConfigs := some { GoroutineThreshold := -1, GoroutineHangingTimeMs := 0,
                                   GoroutineDumpPrefix := none },
    WatchdogIntervalMs := 1000 }

/-- A configuration with heap monitoring on, no bytes threshold and a negative
percentage. -/
def negativePercentageConfig : GoDumpConfigs :=
  { GoDumpHeap := true, GoDumpGoroutine := false, GoDumpPath := "./_test",
    HeapDumpConfigs := some { HeapThresholdBytes := 0,
                              HeapThresholdPercentage := Float64.fin (-1 / 2),
                              HeapDumpPrefix := none },
    GoroutineDumpConfigs := none, WatchdogIntervalMs := 1000 }

/-! ## Theorems -/

theorem Float64.gt_one_of_le_one (x : Float64) (h : Float64.le x Float64.one = true) :
    Float64.gt x Float64.one = false := by
  cases x <;> simp_all [Float64.le, Float64.gt, Float64.one]

theorem heapChecks_ne_none (c : GoDumpConfigs)
    (h : ¬ (c.GoDumpHeap = true ∧ c.HeapDumpConfigs = none)) : heapChecks c ≠ none := by
  unfold heapChecks
  cases hb : c.GoDumpHeap <;> cases hc : c.HeapDumpConfigs <;> simp_all
  split
  · simp
  · split <;> simp

theorem goroutineChecks_ne_none (c : GoDumpConfigs)
    (h : ¬ (c.GoDumpGoroutine = true ∧ c.GoroutineDumpConfigs = none)) :
    goroutineChecks c ≠ none := by
  unfold goroutineChecks
  cases hb : c.GoDumpGoroutine <;> cases hc : c.GoroutineDumpConfigs <;> simp_all
  split <;> simp

/-- The result of `NewGoDumpService` is never a panic, and it carries either
an error and no service, or no error and a service on the configuration. -/
theorem NewGoDumpService_cases (c : GoDumpConfigs) :
    (∃ err, NewGoDumpService (some c) = some (none, some err)) ∨
    NewGoDumpService (some c) = some (some { configs := c }, none) := by
  unfold NewGoDumpService
  by_cases h1 : c.GoDumpHeap = true ∧ c.HeapDumpConfigs = none
  · simp [h1]
  by_cases h2 : c.GoDumpGoroutine = true ∧ c.GoroutineDumpConfigs = none
  · simp [h1, h2]
  have n1 := heapChecks_ne_none c h1
  have n2 := goroutineChecks_ne_none c h2
  simp only [h1, h2, if_false]
  rcases hh : heapChecks c with _ | _ | e
  · exact absurd hh n1
  · rcases hg : goroutineChecks c with _ | _ | e
    · exact absurd hg n2
    · simp only
      split
      · exact Or.inl ⟨_, rfl⟩
      · split
        · exact Or.inl ⟨_, rfl⟩
        · exact Or.inr rfl
    · exact Or.inl ⟨_, rfl⟩
  · exact Or.inl ⟨_, rfl⟩

/-- When `NewGoDumpService` returns no error, every one of its checks has
passed. -/
theorem NewGoDumpService_ok (c : GoDumpConfigs) (r : Option GoDumpService)
    (h : NewGoDumpService (some c) = some (r, none)) :
    r = some { configs := c } ∧
    ¬ (c.GoDumpHeap = true ∧ c.HeapDumpConfigs = none) ∧
    ¬ (c.GoDumpGoroutine = true ∧ c.GoroutineDumpConfigs = none) ∧
    heapChecks c = some none ∧ goroutineChecks c = some none ∧
    c.WatchdogIntervalMs ≠ 0 ∧ c.GoDumpPath ≠ "" := by
  unfold NewGoDumpService at h
  by_cases h1 : c.GoDumpHeap = true ∧ c.HeapDumpConfigs = none
  · simp [h1] at h
  by_cases h2 : c.GoDumpGoroutine = true ∧ c.GoroutineDumpConfigs = none
  · simp [h1, h2] at h
  simp only [h1, h2, if_false] at h
  rcases hh : heapChecks c with _ | _ | e
  · simp [hh] at h
  · rcases hg : goroutineChecks c with _ | _ | e
    · simp [hh, hg] at h
    · simp only [hh, hg] at h
      by_cases h3 : c.WatchdogIntervalMs = 0
      · simp [h3] at h
      by_cases h4 : c.GoDumpPath = ""
      · simp [h3, h4] at h
      simp [h3, h4] at h
      exact ⟨h.symm, h1, h2, rfl, rfl, h3, h4⟩
    · simp [hh, hg] at h
  · simp [hh] at h

/-- C1: `NewGoDumpService` never dereferences a nil block (it does not
panic), and it returns an error and no service for every configuration
that is nil, or has heap monitoring enabled without the heap block, or
goroutine monitoring enabled without the goroutine block, or heap monitoring
enabled with both heap thresholds 0, or with `HeapThresholdPercentage > 1`,
or goroutine monitoring enabled with both goroutine thresholds 0, or
`WatchdogIntervalMs` 0, or an empty `GoDumpPath`. -/
theorem NewGoDumpService_rejects (configs : Option GoDumpConfigs) :
    NewGoDumpService configs ≠ none ∧
    ((configs = none ∨ ∃ c, configs = some c ∧
        ((c.GoDumpHeap = true ∧ c.HeapDumpConfigs = none) ∨
         (c.GoDumpGoroutine = true ∧ c.GoroutineDumpConfigs = none) ∨
         (c.GoDumpHeap = true ∧ ∃ h, c.HeapDumpConfigs = some h ∧
            h.HeapThresholdBytes = 0 ∧ Float64.eq h.HeapThresholdPercentage Float64.zero = true) ∨
         (c.GoDumpHeap = true ∧ ∃ h, c.HeapDumpConfigs = some h ∧
            Float64.gt h.HeapThresholdPercentage Float64.one = true) ∨
         (c.GoDumpGoroutine = true ∧ ∃ g, c.GoroutineDumpConfigs = some g ∧
            g.GoroutineThreshold = 0 ∧ g.GoroutineHangingTimeMs = 0) ∨
         c.WatchdogIntervalMs = 0 ∨ c.GoDumpPath = "")) →
      ∃ err, NewGoDumpService configs = some (none, some err)) := by
  cases configs with
  | none => exact ⟨by simp [NewGoDumpService], fun _ => ⟨_, rfl⟩⟩
  | some c =>
    refine ⟨?_, ?_⟩
    · rcases NewGoDumpService_cases c with ⟨e, he⟩ | he <;> simp [he]
    · rintro (hn | ⟨c', hc, hbad⟩)
      · cases hn
      · cases hc
        rcases NewGoDumpService_cases c with he | he
        · exact he
        · exfalso
          obtain ⟨-, g1, g2, g3, g4, g5, g6⟩ := NewGoDumpService_ok c _ he
          rcases hbad with hb | hb | ⟨hb, h, hh, z1, z2⟩ | ⟨hb, h, hh, z⟩ |
            ⟨hb, g, hg, z1, z2⟩ | hb | hb
          · exact g1 hb
          · exact g2 hb
          · simp [heapChecks, hb, hh, z1, z2] at g3
          · simp only [heapChecks, hb, hh, z, if_true] at g3
            split at g3 <;> simp at g3
          · simp [goroutineChecks, hb, hg, z1, z2] at g4
          · exact g5 hb
          · exact g6 hb

/-- C1, on the test case `Bad heapdump HeapThresholdPercentage > 1` of
`TestBadInput`: heap monitoring with a percentage of 1.1 is refused. -/
theorem NewGoDumpService_rejects_witness :
    ∃ err, NewGoDumpService (some badPercentageConfig) = some (none, some err) :=
  (NewGoDumpService_rejects (some badPercentageConfig)).2
    (Or.inr ⟨badPercentageConfig, rfl, Or.inr (Or.inr (Or.inr (Or.inl
      ⟨rfl, _, rfl, by simp [Float64.gt, Float64.one]; norm_num⟩)))⟩)

/-- C4: `NewGoDumpService` accepts every valid configuration: when the
sampling interval is positive, the dump path is not empty, an enabled heap
monitor has its block with a threshold that is not 0 and a percentage at most
1, and an enabled goroutine monitor has its block with a threshold that is
not 0, it returns no error and a service that holds the very configuration
passed in. -/
theorem NewGoDumpService_accepts (c : GoDumpConfigs)
    (hInterval : c.WatchdogIntervalMs > 0) (hPath : c.GoDumpPath ≠ "")
    (hHeap : c.GoDumpHeap = true → ∃ h, c.HeapDumpConfigs = some h ∧
      (h.HeapThresholdBytes ≠ 0 ∨ Float64.eq h.HeapThresholdPercentage Float64.zero = false) ∧
      Float64.le h.HeapThresholdPercentage Float64.one = true)
    (hGoroutine : c.GoDumpGoroutine = true → ∃ g, c.GoroutineDumpConfigs = some g ∧
      (g.GoroutineThreshold ≠ 0 ∨ g.GoroutineHangingTimeMs ≠ 0)) :
    NewGoDumpService (some c) = some (some { configs := c }, none) := by
  have e1 : heapChecks c = some none := by
    unfold heapChecks
    cases hb : c.GoDumpHeap
    · simp
    · obtain ⟨h, hh, hz, hle⟩ := hHeap hb
      have hgt := Float64.gt_one_of_le_one _ hle
      rcases hz with hz | hz <;> simp [hh, hz, hgt]
  have e2 : goroutineChecks c = some none := by
    unfold goroutineChecks
    cases hb : c.GoDumpGoroutine
    · simp
    · obtain ⟨g, hg, hz⟩ := hGoroutine hb
      rcases hz with hz | hz <;> simp [hg, hz]
  have n1 : ¬ (c.GoDumpHeap = true ∧ c.HeapDumpConfigs = none) := by
    rintro ⟨hb, hn⟩
    obtain ⟨h, hh, -⟩ := hHeap hb
    simp [hn] at hh
  have n2 : ¬ (c.GoDumpGoroutine = true ∧ c.GoroutineDumpConfigs = none) := by
    rintro ⟨hb, hn⟩
    obtain ⟨g, hg, -⟩ := hGoroutine hb
    simp [hn] at hg
  have n3 : c.WatchdogIntervalMs ≠ 0 := by omega
  unfold NewGoDumpService
  simp [n1, n2, e1, e2, n3, hPath]

/-- C4, on the configuration of `TestHeapdumpBytesTriggerFile`. -/
theorem NewGoDumpService_accepts_witness :
    NewGoDumpService (some heapBytesConfig) = some (some { configs := heapBytesConfig }, none) :=
  NewGoDumpService_accepts heapBytesConfig (by decide) (by decide)
    (fun _ => ⟨_, rfl, Or.inl (by decide), by simp [Float64.le, Float64.one]⟩)
    (fun h => by simp [heapBytesConfig] at h)

theorem negativeIntervalConfig_accepted :
    NewGoDumpService (some negativeIntervalConfig) =
      some (some { configs := negativeIntervalConfig }, none) := by
  simp [NewGoDumpService, heapChecks, goroutineChecks, negativeIntervalConfig]

/-- C5 fails on the code: a configuration with `WatchdogIntervalMs = -1` is
accepted by `NewGoDumpService`, which returns a service and no error, and its
interval is not positive: the check of line 337 is `== 0` on a signed
`int`. -/
theorem NewGoDumpService_negative_interval :
    NewGoDumpService (some negativeIntervalConfig) =
      some (some { configs := negativeIntervalConfig }, none) ∧
    ¬ (negativeIntervalConfig.WatchdogIntervalMs > 0) :=
  ⟨negativeIntervalConfig_accepted, by decide⟩

/-- What lines 337-342 do enforce: for every configuration for which
`NewGoDumpService` returns no error, `WatchdogIntervalMs` is not 0 and
`GoDumpPath` is not the empty string. -/
theorem NewGoDumpService_interval_path (c : GoDumpConfigs) (r : Option GoDumpService)
    (h : NewGoDumpService (some c) = some (r, none)) :
    c.WatchdogIntervalMs ≠ 0 ∧ c.GoDumpPath ≠ "" := by
  obtain ⟨-, -, -, -, -, h5, h6⟩ := NewGoDumpService_ok c r h
  exact ⟨h5, h6⟩

theorem startHeap_mem_bytes (c : GoDumpConfigs) (mem : Nat) (hw : List Watcher)
    (h : startHeap c mem = some hw) :
    (Watcher.WatchHeapBytes ∈ hw ↔
      c.GoDumpHeap = true ∧ ∃ b, c.HeapDumpConfigs = some b ∧ b.HeapThresholdBytes > 0) ∧
    ((∃ a, Watcher.WatchHeapPercentage a ∈ hw) ↔
      c.GoDumpHeap = true ∧ ∃ b, c.HeapDumpConfigs = some b ∧
        Float64.gt b.HeapThresholdPercentage Float64.zero = true) ∧
    (∀ a, Watcher.WatchHeapPercentage a ∈ hw → a = mem) ∧
    Watcher.WatchGoroutines ∉ hw ∧ Watcher.WatchGoroutinesHanging ∉ hw ∧ hw.Nodup := by
  unfold startHeap at h
  cases hb : c.GoDumpHeap
  · simp [hb] at h
    subst h
    simp
  · cases hc : c.HeapDumpConfigs with
    | none => simp [hb, hc] at h
    | some b =>
      simp only [hb, hc, if_true, Option.some.injEq] at h
      subst h
      by_cases h1 : b.HeapThresholdBytes > 0 <;>
        cases h2 : Float64.gt b.HeapThresholdPercentage Float64.zero <;> simp [h1, h2]

theorem startGoroutine_mem (c : GoDumpConfigs) (gw : List Watcher)
    (h : startGoroutine c = some gw) :
    (Watcher.WatchGoroutines ∈ gw ↔
      c.GoDumpGoroutine = true ∧ ∃ g, c.GoroutineDumpConfigs = some g ∧
        g.GoroutineThreshold > 0) ∧
    (Watcher.WatchGoroutinesHanging ∈ gw ↔
      c.GoDumpGoroutine = true ∧ ∃ g, c.GoroutineDumpConfigs = some g ∧
        g.GoroutineHangingTimeMs > 0) ∧
    Watcher.WatchHeapBytes ∉ gw ∧ (∀ a, Watcher.WatchHeapPercentage a ∉ gw) ∧ gw.Nodup := by
  unfold startGoroutine at h
  cases hb : c.GoDumpGoroutine
  · simp [hb] at h
    subst h
    simp
  · cases hc : c.GoroutineDumpConfigs with
    | none => simp [hb, hc] at h
    | some g =>
      simp only [hb, hc, if_true, Option.some.injEq] at h
      subst h
      by_cases h1 : g.GoroutineThreshold > 0 <;>
        by_cases h2 : g.GoroutineHangingTimeMs > 0 <;> simp [h1, h2]

theorem Start_ok (gd : GoDumpService) (sysinfo : Except String Sysinfo_t) (ws : List Watcher)
    (h : gd.Start sysinfo = some (ws, none)) :
    ∃ hw gw, startHeap gd.configs (getAvailableMemory sysinfo).1 = some hw ∧
      startGoroutine gd.configs = some gw ∧ ws = hw ++ gw := by
  unfold GoDumpService.Start at h
  rcases hm : getAvailableMemory sysinfo with ⟨mem, _ | err⟩
  · rw [hm] at h
    simp only at h
    cases hh : startHeap gd.configs mem with
    | none => simp [hh] at h
    | some hw =>
      cases hg : startGoroutine gd.configs with
      | none => simp [hh, hg] at h
      | some gw =>
        simp [hh, hg] at h
        exact ⟨hw, gw, rfl, rfl, h.symm⟩
  · rw [hm] at h
    simp at h

/-- C6: when `Start` succeeds, the watchers it has started are exactly: the
heap-bytes watcher iff heap monitoring is enabled and `HeapThresholdBytes > 0`;
the heap-percentage watcher iff heap monitoring is enabled and
`HeapThresholdPercentage > 0`; the task-count watcher iff goroutine monitoring
is enabled and `GoroutineThreshold > 0`; the hanging-task watcher iff goroutine
monitoring is enabled and `GoroutineHangingTimeMs > 0`. Each condition reads
the configuration alone; no watcher is started twice, and every
heap-percentage watcher is started on the one memory reading, so there is at
most one watcher of each kind. -/
theorem Start_watchers (gd : GoDumpService) (sysinfo : Except String Sysinfo_t)
    (ws : List Watcher) (h : gd.Start sysinfo = some (ws, none)) :
    (Watcher.WatchHeapBytes ∈ ws ↔
      gd.configs.GoDumpHeap = true ∧ ∃ b, gd.configs.HeapDumpConfigs = some b ∧
        b.HeapThresholdBytes > 0) ∧
    ((∃ a, Watcher.WatchHeapPercentage a ∈ ws) ↔
      gd.configs.GoDumpHeap = true ∧ ∃ b, gd.configs.HeapDumpConfigs = some b ∧
        Float64.gt b.HeapThresholdPercentage Float64.zero = true) ∧
    (Watcher.WatchGoroutines ∈ ws ↔
      gd.configs.GoDumpGoroutine = true ∧ ∃ g, gd.configs.GoroutineDumpConfigs = some g ∧
        g.GoroutineThreshold > 0) ∧
    (Watcher.WatchGoroutinesHanging ∈ ws ↔
      gd.configs.GoDumpGoroutine = true ∧ ∃ g, gd.configs.GoroutineDumpConfigs = some g ∧
        g.GoroutineHangingTimeMs > 0) ∧
    (∀ a, Watcher.WatchHeapPercentage a ∈ ws → a = (getAvailableMemory sysinfo).1) ∧
    ws.Nodup := by
  obtain ⟨hw, gw, hh, hg, rfl⟩ := Start_ok gd sysinfo ws h
  obtain ⟨a1, a2, a3, a4, a5, a6⟩ := startHeap_mem_bytes _ _ _ hh
  obtain ⟨b1, b2, b3, b4, b5⟩ := startGoroutine_mem _ _ hg
  refine ⟨?_, ?_, ?_, ?_, ?_, ?_⟩
  · rw [List.mem_append, a1]; simp [b3]
  · rw [← a2]
    constructor
    · rintro ⟨a, ha⟩
      rcases List.mem_append.1 ha with ha | ha
      · exact ⟨a, ha⟩
      · exact absurd ha (b4 a)
    · rintro ⟨a, ha⟩
      exact ⟨a, List.mem_append.2 (Or.inl ha)⟩
  · rw [List.mem_append, b1]; simp [a4]
  · rw [List.mem_append, b2]; simp [a5]
  · intro a ha
    rcases List.mem_append.1 ha with ha | ha
    · exact a3 a ha
    · exact absurd ha (b4 a)
  · rw [List.nodup_append]
    refine ⟨a6, b5, ?_⟩
    intro w hw1 hw2
    cases w with
    | WatchHeapBytes => exact b3 hw2
    | WatchHeapPercentage a => exact b4 a hw2
    | WatchGoroutines => exact a4 hw1
    | WatchGoroutinesHanging => exact a5 hw1

theorem fullConfig_Start :
    GoDumpService.Start { configs := fullConfig } (Except.ok fourGiB) =
      some ([Watcher.WatchHeapBytes, Watcher.WatchHeapPercentage 4294967296,
             Watcher.WatchGoroutines, Watcher.WatchGoroutinesHanging], none) := by
  simp [GoDumpService.Start, getAvailableMemory, startHeap, startGoroutine, fullConfig,
    fourGiB, Float64.gt, Float64.zero]

/-- C6, on a configuration with every threshold set: the four watchers are
started, once each. -/
theorem Start_watchers_witness :
    (Watcher.WatchHeapBytes ∈ [Watcher.WatchHeapBytes, Watcher.WatchHeapPercentage 4294967296,
        Watcher.WatchGoroutines, Watcher.WatchGoroutinesHanging] ↔
      fullConfig.GoDumpHeap = true ∧ ∃ b, fullConfig.HeapDumpConfigs = some b ∧
        b.HeapThresholdBytes > 0) ∧
    [Watcher.WatchHeapBytes, Watcher.WatchHeapPercentage 4294967296,
        Watcher.WatchGoroutines, Watcher.WatchGoroutinesHanging].Nodup := by
  have h := Start_watchers { configs := fullConfig } (Except.ok fourGiB) _ fullConfig_Start
  exact ⟨h.1, h.2.2.2.2.2⟩

/-- C7 as stated fails: with heap monitoring by bytes alone (no percentage
mode), a failing memory probe makes `Start` return the error and start no
watcher. -/
theorem Start_probe_error_without_percentage :
    heapBytesConfig.HeapDumpConfigs.map (fun b => Float64.gt b.HeapThresholdPercentage Float64.zero)
      = some false ∧
    GoDumpService.Start { configs := heapBytesConfig } (Except.error "sysinfo failed") =
      some ([], some "sysinfo failed") := by
  constructor
  · simp [heapBytesConfig, Float64.gt, Float64.zero]
  · simp [GoDumpService.Start, getAvailableMemory]

/-- C7, amended: `Start` reads the total system memory whatever the
configuration. It returns the error of the probe, and starts no watcher,
whenever the probe fails; and when the probe succeeds it returns no error, for
every configuration whose enabled blocks are present. -/
theorem Start_error_iff_probe (gd : GoDumpService) :
    (∀ err, gd.Start (Except.error err) = some ([], some err)) ∧
    (∀ info, (gd.configs.GoDumpHeap = true → gd.configs.HeapDumpConfigs ≠ none) →
      (gd.configs.GoDumpGoroutine = true → gd.configs.GoroutineDumpConfigs ≠ none) →
      ∃ ws, gd.Start (Except.ok info) = some (ws, none)) := by
  constructor
  · intro err
    simp [GoDumpService.Start, getAvailableMemory]
  · intro info h1 h2
    have e1 : ∃ hw, startHeap gd.configs ((info.Totalram * info.Unit) % 2 ^ 64) = some hw := by
      unfold startHeap
      cases hb : gd.configs.GoDumpHeap
      · exact ⟨_, rfl⟩
      · cases hc : gd.configs.HeapDumpConfigs with
        | none => exact absurd hc (h1 hb)
        | some b => exact ⟨_, rfl⟩
    have e2 : ∃ gw, startGoroutine gd.configs = some gw := by
      unfold startGoroutine
      cases hb : gd.configs.GoDumpGoroutine
      · exact ⟨_, rfl⟩
      · cases hc : gd.configs.GoroutineDumpConfigs with
        | none => exact absurd hc (h2 hb)
        | some b => exact ⟨_, rfl⟩
    obtain ⟨hw, e1⟩ := e1
    obtain ⟨gw, e2⟩ := e2
    exact ⟨hw ++ gw, by simp only [GoDumpService.Start, getAvailableMemory, e1, e2]⟩

/-- C7, amended, on the configuration of the heap-bytes test and a machine
of 4 GiB. -/
theorem Start_error_iff_probe_witness :
    ∃ ws, GoDumpService.Start { configs := heapBytesConfig } (Except.ok fourGiB) =
      some (ws, none) :=
  (Start_error_iff_probe { configs := heapBytesConfig }).2 fourGiB
    (fun _ => by simp [heapBytesConfig]) (fun h => by simp [heapBytesConfig] at h)

theorem WatchHeapBytes_ticks (gd : GoDumpService) (b : DumpHeapConfigs)
    (hb : gd.configs.HeapDumpConfigs = some b) (tail : List (Select Nat))
    (htail : tail = [] ∨ ∃ rest, tail = Select.stop :: rest) (samples : List Nat) :
    WatchHeapBytes gd (samples.map Select.tick ++ tail) =
      some (List.replicate (samples.filter (fun a => decide (a > b.HeapThresholdBytes))).length
        Call.TakeHeapDump) := by
  induction samples with
  | nil =>
    rcases htail with rfl | ⟨rest, rfl⟩ <;> simp [WatchHeapBytes]
  | cons a samples ih =>
    simp only [List.map_cons, List.cons_append, WatchHeapBytes, heapBytesTick, hb]
    by_cases h : a > b.HeapThresholdBytes
    · simp only [h, if_true, List.append_eq]
      rw [ih]
      simp [h, List.filter_cons, List.replicate_succ]
    · simp only [h, if_false, List.append_eq]
      rw [ih]
      simp [h, List.filter_cons]

/-- C8: in the heap-bytes watcher with threshold `HeapThresholdBytes`, a tick
requests a heap dump if and only if its sample is strictly greater than the
threshold, whatever came before; over any run of ticks (ended by the stop
signal or not) the requests are as many as the samples above the threshold,
all of them heap dumps; and a run whose samples never exceed the threshold
requests nothing. -/
theorem WatchHeapBytes_requests (gd : GoDumpService) (b : DumpHeapConfigs)
    (hb : gd.configs.HeapDumpConfigs = some b) :
    (∀ Alloc, ∃ calls, heapBytesTick gd Alloc = some calls ∧
      (Call.TakeHeapDump ∈ calls ↔ Alloc > b.HeapThresholdBytes) ∧
      (Alloc = b.HeapThresholdBytes → calls = [])) ∧
    (∀ (samples : List Nat) (tail : List (Select Nat)),
      (tail = [] ∨ ∃ rest, tail = Select.stop :: rest) →
      ∃ calls, WatchHeapBytes gd (samples.map Select.tick ++ tail) = some calls ∧
        calls.length = (samples.filter (fun a => decide (a > b.HeapThresholdBytes))).length ∧
        (∀ call ∈ calls, call = Call.TakeHeapDump) ∧
        ((∀ a ∈ samples, a ≤ b.HeapThresholdBytes) → calls = [])) := by
  constructor
  · intro Alloc
    by_cases h : Alloc > b.HeapThresholdBytes
    · exact ⟨[Call.TakeHeapDump], by simp [heapBytesTick, hb, h], by simp [h], fun e => by omega⟩
    · exact ⟨[], by simp [heapBytesTick, hb, h], by simp [h], fun _ => rfl⟩
  · intro samples tail htail
    refine ⟨_, WatchHeapBytes_ticks gd b hb tail htail samples, by simp, ?_, ?_⟩
    · intro call hc
      exact List.eq_of_mem_replicate hc
    · intro hall
      have : samples.filter (fun a => decide (a > b.HeapThresholdBytes)) = [] := by
        rw [List.filter_eq_nil_iff]
        intro a ha
        have := hall a ha
        simp
        omega
      simp [this]

/-- C8, on the configuration of the heap-bytes tests (25 MiB): samples of
10 MiB, 50 MiB, exactly 25 MiB and 50 MiB again give two requests. -/
theorem WatchHeapBytes_requests_witness :
    ∃ calls, WatchHeapBytes { configs := heapBytesConfig }
        ([10485760, 52428800, 26214400, 52428800].map Select.tick ++ [Select.stop]) = some calls ∧
      calls.length = ([10485760, 52428800, 26214400, 52428800].filter
        (fun a => decide (a > 1024 * 1024 * 25))).length := by
  obtain ⟨calls, h1, h2, -⟩ :=
    (WatchHeapBytes_requests { configs := heapBytesConfig } _ rfl).2
      [10485760, 52428800, 26214400, 52428800] [Select.stop] (Or.inr ⟨[], rfl⟩)
  exact ⟨calls, h1, h2⟩

theorem WatchGoroutines_ticks (gd : GoDumpService) (g : DumpGoroutineConfigs)
    (hg : gd.configs.GoroutineDumpConfigs = some g) (tail : List (Select Int))
    (htail : tail = [] ∨ ∃ rest, tail = Select.stop :: rest) (samples : List Int) :
    WatchGoroutines gd (samples.map Select.tick ++ tail) =
      some (List.replicate (samples.filter (fun n => decide (n > g.GoroutineThreshold))).length
        (Call.TakeGoroutineDump [])) := by
  induction samples with
  | nil =>
    rcases htail with rfl | ⟨rest, rfl⟩ <;> simp [WatchGoroutines]
  | cons a samples ih =>
    simp only [List.map_cons, List.cons_append, WatchGoroutines, goroutinesTick, hg]
    by_cases h : a > g.GoroutineThreshold
    · simp only [h, if_true, List.append_eq]
      rw [ih]
      simp [h, List.filter_cons, List.replicate_succ]
    · simp only [h, if_false, List.append_eq]
      rw [ih]
      simp [h, List.filter_cons]

/-- C9: in the task-count watcher with threshold `GoroutineThreshold`, a tick
requests a stack report if and only if the sampled number of goroutines is
strictly greater than the threshold; every report requested over a run is
given the empty hanging set; and a report on the empty hanging set carries no
hanging-goroutines section: what is written is the header alone. -/
theorem WatchGoroutines_requests (gd : GoDumpService) (g : DumpGoroutineConfigs)
    (hg : gd.configs.GoroutineDumpConfigs = some g) :
    (∀ NumGoroutine, ∃ calls, goroutinesTick gd NumGoroutine = some calls ∧
      ((∃ hanging, Call.TakeGoroutineDump hanging ∈ calls) ↔
        NumGoroutine > g.GoroutineThreshold) ∧
      (∀ call ∈ calls, call = Call.TakeGoroutineDump [])) ∧
    (∀ (samples : List Int) (tail : List (Select Int)),
      (tail = [] ∨ ∃ rest, tail = Select.stop :: rest) →
      ∃ calls, WatchGoroutines gd (samples.map Select.tick ++ tail) = some calls ∧
        calls.length = (samples.filter (fun n => decide (n > g.GoroutineThreshold))).length ∧
        (∀ call ∈ calls, call = Call.TakeGoroutineDump [])) ∧
    (∀ env, hangingSection g env [] = [] ∧
      ∃ file, TakeGoroutineDump gd.configs env [] = some (file, dumpHeader env)) := by
  refine ⟨?_, ?_, ?_⟩
  · intro n
    by_cases h : n > g.GoroutineThreshold
    · exact ⟨[Call.TakeGoroutineDump []], by simp [goroutinesTick, hg, h],
        by simp only [h, iff_true]; exact ⟨[], by simp⟩, by simp⟩
    · exact ⟨[], by simp [goroutinesTick, hg, h], by simp [h], by simp⟩
  · intro samples tail htail
    refine ⟨_, WatchGoroutines_ticks gd g hg tail htail samples, by simp, ?_⟩
    intro call hc
    exact List.eq_of_mem_replicate hc
  · intro env
    refine ⟨by simp [hangingSection], ?_⟩
    simp [TakeGoroutineDump, GoroutineDumpFile, hg, hangingSection]

/-- C9, on the configuration of the task-count tests (threshold 15): ten
goroutines request nothing, twenty request a report with no hanging set. -/
theorem WatchGoroutines_requests_witness :
    ∃ calls, WatchGoroutines { configs := goroutineCountConfig }
        ([10, 20].map Select.tick ++ [Select.stop]) = some calls ∧
      calls.length = ([10, 20].filter (fun n => decide (n > (15 : Int)))).length ∧
      (∀ call ∈ calls, call = Call.TakeGoroutineDump []) :=
  (WatchGoroutines_requests { configs := goroutineCountConfig } _ rfl).2.1
    [10, 20] [Select.stop] (Or.inr ⟨[], rfl⟩)

theorem slash_prefix_cons (d : Char) (v : List Char) : ['/'] <+: d :: v ↔ d = '/' := by
  simp [eq_comm]

theorem collapse_slash_slash (t : List Char) :
    replaceScan ['/', '/'] ['/'] 0 ('/' :: '/' :: t) = '/' :: replaceScan ['/', '/'] ['/'] 0 t := by
  simp [replaceScan, List.isPrefixOf]

theorem collapse_cons (c : Char) (t : List Char) (h : ¬ (c = '/' ∧ ['/'] <+: t)) :
    replaceScan ['/', '/'] ['/'] 0 (c :: t) = c :: replaceScan ['/', '/'] ['/'] 0 t := by
  cases t with
  | nil => simp [replaceScan, List.isPrefixOf]
  | cons d u =>
    have : ¬ (c = '/' ∧ d = '/') := by rwa [slash_prefix_cons] at h
    simp only [replaceScan, List.isPrefixOf]
    split
    · rename_i hp
      simp at hp
      exact absurd ⟨hp.1.symm, hp.2.symm⟩ this
    · rfl

theorem collapse_head (u : List Char) :
    ['/'] <+: replaceScan ['/', '/'] ['/'] 0 u ↔ ['/'] <+: u := by
  cases u with
  | nil => simp [replaceScan]
  | cons c t =>
    by_cases h : c = '/' ∧ ['/'] <+: t
    · obtain ⟨rfl, ht⟩ := h
      cases t with
      | nil => simp at ht
      | cons d v =>
        have : d = '/' := (slash_prefix_cons d _).1 ht
        subst this
        rw [collapse_slash_slash]
        simp
    · rw [collapse_cons c t h]
      simp

theorem collapse_infix : ∀ (n : Nat) (s : List Char), s.length ≤ n →
    (['/', '/'] <:+: replaceScan ['/', '/'] ['/'] 0 s ↔ ['/', '/', '/'] <:+: s) := by
  intro n
  induction n with
  | zero =>
    intro s hs
    have : s = [] := List.length_eq_zero.1 (by omega)
    subst this
    simp [replaceScan]
  | succ n ih =>
    intro s hs
    cases s with
    | nil => simp [replaceScan]
    | cons c t =>
      by_cases h : c = '/' ∧ ['/'] <+: t
      · obtain ⟨rfl, ht⟩ := h
        cases t with
        | nil => simp at ht
        | cons d u =>
          have : d = '/' := (slash_prefix_cons d _).1 ht
          subst this
          rw [collapse_slash_slash]
          have ihu := ih u (by simp at hs; omega)
          have hd := collapse_head u
          rw [List.infix_cons_iff, ihu, List.infix_cons_iff, List.infix_cons_iff]
          simp only [List.cons_prefix_cons, true_and]
          rw [hd]
          constructor
          · rintro (h | h)
            · exact Or.inl h
            · exact Or.inr (Or.inr h)
          · rintro (h | h | h)
            · exact Or.inl h
            · left
              obtain ⟨w, rfl⟩ := h
              exact ⟨'/' :: w, by simp⟩
            · exact Or.inr h
      · rw [collapse_cons c t h]
        have iht := ih t (by simp at hs; omega)
        have hd := collapse_head t
        rw [List.infix_cons_iff, iht, List.infix_cons_iff]
        simp only [List.cons_prefix_cons]
        rw [hd]
        constructor
        · rintro (h' | h')
          · exact absurd ⟨h'.1.symm, h'.2⟩ h
          · exact Or.inr h'
        · rintro (h' | h')
          · exfalso
            apply h
            refine ⟨h'.1.symm, ?_⟩
            obtain ⟨w, hw⟩ := h'.2
            exact ⟨'/' :: w, by simpa using hw⟩
          · exact Or.inr h'

theorem stringsReplace_infix (s : String) :
    "//".data <:+: (stringsReplace s "//" "/").data ↔ "///".data <:+: s.data := by
  show ['/', '/'] <:+: replaceScan ['/', '/'] ['/'] 0 s.data ↔ ['/', '/', '/'] <:+: s.data
  exact collapse_infix s.data.length s.data (le_refl _)

/-- C10 as stated fails: with the dump path `/tmp//` the heap file
name still holds a double slash after the replacement. -/
theorem HeapDumpFile_double_slash :
    HeapDumpFile doubleSlashConfig "2024-01-01T00:00:00" =
      some "/tmp//heapdump2024-01-01T00:00:00.hprof" ∧
    "//".data <:+: "/tmp//heapdump2024-01-01T00:00:00.hprof".data := by
  decide

/-- C10, amended: the heap file name is
`strings.Replace(GoDumpPath + "/" + pfx + ts + ".hprof", "//", "/", -1)`, with
`pfx` the configured one or `heapdump`: one pass from left to right that
replaces each non-overlapping `//` by `/`. The result holds a `//` exactly
when the string before the replacement holds a `///`; so there is none when
that string has no three slashes in a row. The stack file name is the same
with `.txt` and `goroutinedump`. -/
theorem dumpFile_collapse (c : GoDumpConfigs) (ts : String) :
    (∀ b, c.HeapDumpConfigs = some b →
      HeapDumpFile c ts = some (stringsReplace
        (c.GoDumpPath ++ "/" ++ b.HeapDumpPrefix.getD "heapdump" ++ ts ++ ".hprof") "//" "/") ∧
      ∀ file, HeapDumpFile c ts = some file →
        ("//".data <:+: file.data ↔ "///".data <:+:
          (c.GoDumpPath ++ "/" ++ b.HeapDumpPrefix.getD "heapdump" ++ ts ++ ".hprof").data)) ∧
    (∀ g, c.GoroutineDumpConfigs = some g →
      GoroutineDumpFile c ts = some (stringsReplace
        (c.GoDumpPath ++ "/" ++ g.GoroutineDumpPrefix.getD "goroutinedump" ++ ts ++ ".txt")
          "//" "/") ∧
      ∀ file, GoroutineDumpFile c ts = some file →
        ("//".data <:+: file.data ↔ "///".data <:+:
          (c.GoDumpPath ++ "/" ++ g.GoroutineDumpPrefix.getD "goroutinedump" ++ ts ++ ".txt").data)) := by
  constructor
  · intro b hb
    have e : HeapDumpFile c ts = some (stringsReplace
        (c.GoDumpPath ++ "/" ++ b.HeapDumpPrefix.getD "heapdump" ++ ts ++ ".hprof") "//" "/") := by
      unfold HeapDumpFile
      rw [hb]
      cases hp : b.HeapDumpPrefix <;> simp [hp]
    refine ⟨e, ?_⟩
    intro file hf
    rw [e] at hf
    cases hf
    exact stringsReplace_infix _
  · intro g hg
    have e : GoroutineDumpFile c ts = some (stringsReplace
        (c.GoDumpPath ++ "/" ++ g.GoroutineDumpPrefix.getD "goroutinedump" ++ ts ++ ".txt")
          "//" "/") := by
      unfold GoroutineDumpFile
      rw [hg]
      cases hp : g.GoroutineDumpPrefix <;> simp [hp]
    refine ⟨e, ?_⟩
    intro file hf
    rw [e] at hf
    cases hf
    exact stringsReplace_infix _

/-- C10, amended, on the configuration of the heap-bytes tests: the file name
is `./_test/heapdump2024-01-01T00:00:00.hprof`. -/
theorem dumpFile_collapse_witness :
    HeapDumpFile heapBytesConfig "2024-01-01T00:00:00" =
      some "./_test/heapdump2024-01-01T00:00:00.hprof" ∧
    ¬ "//".data <:+: "./_test/heapdump2024-01-01T00:00:00.hprof".data := by
  have h := (dumpFile_collapse heapBytesConfig "2024-01-01T00:00:00").1 _ rfl
  have e : HeapDumpFile heapBytesConfig "2024-01-01T00:00:00" =
      some "./_test/heapdump2024-01-01T00:00:00.hprof" := h.1.trans (by decide)
  exact ⟨e, fun hi => absurd ((h.2 _ e).1 hi) (by decide)⟩

/-! ### The map of records -/

theorem Records.get_eq_none_iff (m : Records) (k : StackArray) :
    Records.get m k = none ↔ k ∉ m.map Prod.fst := by
  induction m with
  | nil => simp [Records.get]
  | cons e m ih =>
    obtain ⟨k', r⟩ := e
    by_cases h : k' = k
    · simp [Records.get, h]
    · simp [Records.get, h, ih, Ne.symm h]

theorem Records.mem_of_get (m : Records) (k : StackArray) (r : GoStackAnalyzerRecord)
    (h : Records.get m k = some r) : (k, r) ∈ m := by
  induction m with
  | nil => simp [Records.get] at h
  | cons e m ih =>
    obtain ⟨k', r'⟩ := e
    by_cases hk : k' = k
    · simp [Records.get, hk] at h
      simp [hk, h]
    · simp [Records.get, hk] at h
      exact List.mem_cons_of_mem _ (ih h)

theorem Records.get_of_mem (m : Records) (hnd : (m.map Prod.fst).Nodup) (k : StackArray)
    (r : GoStackAnalyzerRecord) (h : (k, r) ∈ m) : Records.get m k = some r := by
  induction m with
  | nil => simp at h
  | cons e m ih =>
    obtain ⟨k', r'⟩ := e
    simp only [List.map_cons, List.nodup_cons] at hnd
    rcases List.mem_cons.1 h with h | h
    · cases h
      simp [Records.get]
    · have hne : k' ≠ k := by
        rintro rfl
        exact hnd.1 (List.mem_map.2 ⟨(k', r), h, rfl⟩)
      simp [Records.get, hne, ih hnd.2 h]

theorem Records.get_append_single (m : Records) (k goid : StackArray)
    (r : GoStackAnalyzerRecord) :
    Records.get (m ++ [(goid, r)]) k =
      match Records.get m k with
      | some r' => some r'
      | none => if goid = k then some r else none := by
  induction m with
  | nil => simp [Records.get]
  | cons e m ih =>
    obtain ⟨k', r'⟩ := e
    by_cases hk : k' = k
    · simp [Records.get, hk]
    · simp [Records.get, hk, ih]

theorem Records.get_map_update (m : Records) (k goid : StackArray)
    (f : GoStackAnalyzerRecord → GoStackAnalyzerRecord) :
    Records.get (m.map (fun e => if e.1 = goid then (e.1, f e.2) else e)) k =
      if goid = k then (Records.get m k).map f else Records.get m k := by
  induction m with
  | nil => simp [Records.get]
  | cons e m ih =>
    obtain ⟨k', r'⟩ := e
    have hstep : List.map (fun e : StackArray × GoStackAnalyzerRecord =>
          if e.1 = goid then (e.1, f e.2) else e) ((k', r') :: m) =
        (if k' = goid then (k', f r') else (k', r')) ::
          List.map (fun e => if e.1 = goid then (e.1, f e.2) else e) m := rfl
    rw [hstep]
    by_cases hg : k' = goid
    · rw [if_pos hg]
      simp only [Records.get]
      by_cases hk : k' = k
      · have hgk : goid = k := hg ▸ hk
        simp [hk, hgk]
      · have hgk : ¬ goid = k := fun h => hk (hg.trans h)
        rw [if_neg hk, if_neg hk, ih, if_neg hgk]
    · rw [if_neg hg]
      simp only [Records.get]
      by_cases hk : k' = k
      · have hgk : ¬ goid = k := fun h => hg (hk.trans h.symm)
        simp [hk, hgk]
      · rw [if_neg hk, if_neg hk, ih]

theorem Records.keys_map_update (m : Records) (goid : StackArray)
    (f : GoStackAnalyzerRecord → GoStackAnalyzerRecord) :
    (m.map (fun e => if e.1 = goid then (e.1, f e.2) else e)).map Prod.fst = m.map Prod.fst := by
  induction m with
  | nil => rfl
  | cons e m ih =>
    simp only [List.map_cons, ih]
    split <;> rfl

theorem observe_of_none (T : Time) (m : Records) (stack : StackRecord)
    (hg : Records.get m stack.Stack0 = none) :
    observe T m stack = m ++ [(stack.Stack0, insertedRecord T stack)] := by
  simp [observe, hg]

theorem observe_of_some (T : Time) (m : Records) (stack : StackRecord)
    (r0 : GoStackAnalyzerRecord) (hg : Records.get m stack.Stack0 = some r0) :
    observe T m stack =
      m.map (fun e => if e.1 = stack.Stack0 then (e.1, updatedRecord T stack e.2) else e) := by
  simp [observe, hg]

theorem observe_get (T : Time) (m : Records) (stack : StackRecord) (k : StackArray) :
    Records.get (observe T m stack) k = observeKey T k (Records.get m k) stack := by
  unfold observeKey
  cases hg : Records.get m stack.Stack0 with
  | none =>
    rw [observe_of_none T m stack hg, Records.get_append_single]
    by_cases hk : stack.Stack0 = k
    · subst hk; simp [hg]
    · simp only [hk, if_false]
      cases Records.get m k <;> rfl
  | some r0 =>
    rw [observe_of_some T m stack r0 hg, Records.get_map_update]
    by_cases hk : stack.Stack0 = k
    · subst hk; simp [hg]
    · simp [hk]

theorem observe_nodup (T : Time) (m : Records) (stack : StackRecord)
    (hnd : (m.map Prod.fst).Nodup) : ((observe T m stack).map Prod.fst).Nodup := by
  cases hg : Records.get m stack.Stack0 with
  | none =>
    rw [observe_of_none T m stack hg]
    simp only [List.map_append, List.map_cons, List.map_nil]
    rw [List.nodup_append]
    refine ⟨hnd, List.nodup_singleton _, ?_⟩
    intro a ha hb
    rw [List.mem_singleton] at hb
    subst hb
    exact (Records.get_eq_none_iff m _).1 hg ha
  | some r0 =>
    rw [observe_of_some T m stack r0 hg, Records.keys_map_update]
    exact hnd

theorem observeAll_get (T : Time) (goroutines : List StackRecord) (m : Records)
    (k : StackArray) :
    Records.get (observeAll T m goroutines) k =
      goroutines.foldl (observeKey T k) (Records.get m k) := by
  induction goroutines generalizing m with
  | nil => rfl
  | cons stack rest ih =>
    simp only [observeAll, List.foldl_cons] at ih ⊢
    rw [ih, observe_get]

theorem observeAll_nodup (T : Time) (goroutines : List StackRecord) (m : Records)
    (hnd : (m.map Prod.fst).Nodup) : ((observeAll T m goroutines).map Prod.fst).Nodup := by
  induction goroutines generalizing m with
  | nil => exact hnd
  | cons stack rest ih =>
    simp only [observeAll, List.foldl_cons] at ih ⊢
    exact ih _ (observe_nodup T m stack hnd)

theorem Records.get_filter_key (m : Records) (p : StackArray → Bool) (k : StackArray) :
    Records.get (m.filter (fun e => p e.1)) k = if p k then Records.get m k else none := by
  induction m with
  | nil => simp [Records.get]
  | cons e m ih =>
    obtain ⟨k', r'⟩ := e
    by_cases hp : p k' = true
    · rw [List.filter_cons_of_pos (by simpa using hp)]
      by_cases hk : k' = k
      · subst hk; simp [Records.get, hp]
      · simp only [Records.get, if_neg hk, ih]
    · rw [List.filter_cons_of_neg (by simpa using hp)]
      by_cases hk : k' = k
      · subst hk
        rw [ih]
        simp [hp]
      · simp only [Records.get, if_neg hk, ih]

theorem Records.get_map_snd (m : Records) (f : GoStackAnalyzerRecord → GoStackAnalyzerRecord)
    (k : StackArray) :
    Records.get (m.map (fun e => (e.1, f e.2))) k = (Records.get m k).map f := by
  induction m with
  | nil => simp [Records.get]
  | cons e m ih =>
    obtain ⟨k', r'⟩ := e
    by_cases hk : k' = k
    · simp [Records.get, hk]
    · simp [Records.get, hk, ih]

theorem deleteAll_eq_filter (goids : List StackArray) (m : Records) :
    deleteAll m goids = m.filter (fun e => decide (e.1 ∉ goids)) := by
  induction goids generalizing m with
  | nil => simp [deleteAll]
  | cons g gs ih =>
    simp only [deleteAll, List.foldl_cons] at ih ⊢
    rw [ih, Records.delete, List.filter_filter]
    apply List.filter_congr
    intro e _
    by_cases h1 : e.1 = g <;> simp [h1]

theorem collect_eq_filter (m : Records) (ids : List StackArray) :
    deleteAll m (toDelete m ids) = m.filter (fun e => decide (e.1 ∈ ids)) := by
  rw [deleteAll_eq_filter]
  apply List.filter_congr
  intro e he
  have : e.1 ∈ toDelete m ids ↔ e.1 ∉ ids := by
    unfold toDelete
    simp only [List.mem_map, List.mem_filter, decide_eq_true_eq]
    constructor
    · rintro ⟨e', ⟨_, hn⟩, heq⟩
      rw [← heq]; exact hn
    · intro hn
      exact ⟨e, ⟨he, hn⟩, rfl⟩
  by_cases h : e.1 ∈ ids <;> simp [this, h]

theorem classify_eq (c : GoDumpConfigs) (g : DumpGoroutineConfigs)
    (hg : c.GoroutineDumpConfigs = some g) (T : Time) (m : Records) :
    classify c T m =
      some (m.map (fun e => (e.1, markChange T e.2)),
        (m.filter (fun e => tooLong T (durationMs g.GoroutineHangingTimeMs) e.2)).map
          Prod.snd) := by
  induction m with
  | nil => simp [classify]
  | cons e m ih =>
    obtain ⟨k, r⟩ := e
    simp only [classify, hg, ih]
    by_cases h1 : compareStacks r.LastStacks r.CurrentStacks = true
    · by_cases h2 : Time.Sub T r.LastChange > durationMs g.GoroutineHangingTimeMs
      · simp [h1, h2, markChange, tooLong]
      · simp [h1, h2, markChange, tooLong]
    · simp [h1, markChange, tooLong]

theorem StackRecord.eq_of_Stack0 (a b : StackRecord) (h : a.Stack0 = b.Stack0) : a = b := by
  cases a; cases b; simp_all

theorem foldl_observeKey_absent (T : Time) (k : StackArray) (s : List StackRecord)
    (entry : Option GoStackAnalyzerRecord) (h : k ∉ idsPresentOnThisRun s) :
    s.foldl (observeKey T k) entry = entry := by
  induction s generalizing entry with
  | nil => rfl
  | cons stack rest ih =>
    simp only [idsPresentOnThisRun, List.map_cons, List.mem_cons, not_or] at h
    have hne : ¬ stack.Stack0 = k := fun e => h.1 e.symm
    simp only [List.foldl_cons, observeKey, if_neg hne]
    exact ih entry h.2

theorem foldl_observeKey_some (T : Time) (k : StackArray) (s : List StackRecord)
    (r0 : GoStackAnalyzerRecord) (h0 : r0.CurrentStacks.Stack0 = k) :
    ∃ r, s.foldl (observeKey T k) (some r0) = some r ∧ r.CurrentStacks.Stack0 = k ∧
      r.LastChange = r0.LastChange ∧
      (k ∈ idsPresentOnThisRun s → r.LastStacks = r.CurrentStacks ∧ r.CurrentMesure = T) := by
  induction s generalizing r0 with
  | nil => exact ⟨r0, rfl, h0, rfl, by simp [idsPresentOnThisRun]⟩
  | cons stack rest ih =>
    by_cases hk : stack.Stack0 = k
    · have hstep : observeKey T k (some r0) stack = some (updatedRecord T stack r0) := by
        simp [observeKey, hk]
      obtain ⟨r, hr, hc, hl, hs⟩ := ih (updatedRecord T stack r0) hk
      refine ⟨r, by rw [List.foldl_cons, hstep, hr], hc, hl, ?_⟩
      intro _
      by_cases hin : k ∈ idsPresentOnThisRun rest
      · exact hs hin
      · rw [foldl_observeKey_absent T k rest _ hin] at hr
        cases hr
        refine ⟨?_, rfl⟩
        apply StackRecord.eq_of_Stack0
        show r0.CurrentStacks.Stack0 = stack.Stack0
        rw [h0, hk]
    · have hstep : observeKey T k (some r0) stack = some r0 := by
        simp [observeKey, hk]
      obtain ⟨r, hr, hc, hl, hs⟩ := ih r0 h0
      refine ⟨r, by rw [List.foldl_cons, hstep, hr], hc, hl, ?_⟩
      intro hin
      apply hs
      simp only [idsPresentOnThisRun, List.map_cons, List.mem_cons] at hin
      rcases hin with hin | hin
      · exact absurd hin.symm hk
      · exact hin

theorem foldl_observeKey_none (T : Time) (k : StackArray) (s : List StackRecord)
    (h : k ∈ idsPresentOnThisRun s) :
    ∃ r, s.foldl (observeKey T k) none = some r ∧ r.CurrentStacks.Stack0 = k ∧
      r.LastChange = T ∧ r.CurrentMesure = T := by
  induction s with
  | nil => simp [idsPresentOnThisRun] at h
  | cons stack rest ih =>
    by_cases hk : stack.Stack0 = k
    · have hstep : observeKey T k none stack = some (insertedRecord T stack) := by
        simp [observeKey, hk]
      obtain ⟨r, hr, hc, hl, hs⟩ := foldl_observeKey_some T k rest (insertedRecord T stack) hk
      refine ⟨r, by rw [List.foldl_cons, hstep, hr], hc, hl, ?_⟩
      by_cases hin : k ∈ idsPresentOnThisRun rest
      · exact (hs hin).2
      · rw [foldl_observeKey_absent T k rest _ hin] at hr
        cases hr
        rfl
    · have hstep : observeKey T k none stack = none := by
        simp [observeKey, hk]
      simp only [idsPresentOnThisRun, List.map_cons, List.mem_cons] at h
      rcases h with h | h
      · exact absurd h.symm hk
      · obtain ⟨r, hr, hc⟩ := ih h
        exact ⟨r, by rw [List.foldl_cons, hstep, hr], hc⟩

/-! ### One tick of the hanging tracker -/

theorem wrapInt64_bounds (x : Int) : -(2 ^ 63) ≤ wrapInt64 x ∧ wrapInt64 x < 2 ^ 63 := by
  unfold wrapInt64
  omega

theorem durationMs_ne_max (ms : Int) : durationMs ms ≠ 2 ^ 63 - 1 := by
  show ((ms * 1000000 + 2 ^ 63) % 2 ^ 64 - 2 ^ 63 : Int) ≠ 2 ^ 63 - 1
  omega

/-- For a dwell time that fits a `time.Duration` the product is the plain
one. -/
theorem durationMs_eq (ms : Int) (h0 : 0 ≤ ms) (h1 : ms ≤ 9223372036854) :
    durationMs ms = ms * 1000000 := by
  show ((ms * 1000000 + 2 ^ 63) % 2 ^ 64 - 2 ^ 63 : Int) = ms * 1000000
  omega

theorem sat_gt_iff (x d : Int) (hl : -(2 ^ 63) ≤ d) (hd : d < 2 ^ 63 - 1) :
    (if x < -(2 ^ 63) then (-(2 ^ 63) : Int)
      else if x > 2 ^ 63 - 1 then (2 ^ 63 - 1 : Int) else x) > d ↔ x > d := by
  split
  · constructor <;> intro h <;> omega
  · split
    · constructor <;> intro h <;> omega
    · rfl

/-- The saturation of `Time.Sub` is never seen by the comparison with a dwell
time. -/
theorem Time.Sub_gt_durationMs (t u : Time) (ms : Int) :
    Time.Sub t u > durationMs ms ↔ t - u > durationMs ms := by
  have hb := wrapInt64_bounds (ms * 1000000)
  have hn : (wrapInt64 (ms * 1000000) : Int) ≠ 2 ^ 63 - 1 := durationMs_ne_max ms
  have hlt : (wrapInt64 (ms * 1000000) : Int) < 2 ^ 63 - 1 := by omega
  exact sat_gt_iff (t - u) (wrapInt64 (ms * 1000000)) hb.1 hlt

theorem runStart_append (k : StackArray) (ticks : List HangingSample)
    (sample : HangingSample) :
    runStart k (ticks ++ [sample]) = runStep k (runStart k ticks) sample := by
  simp [runStart, List.foldl_append]

/-- After a successful sample that does not hold `fp`, no run of `fp` is
going on. -/
theorem runStart_absent (fp : StackArray) (ticks : List HangingSample)
    (goroutines : List StackRecord) (T : Time) (h : fp ∉ idsPresentOnThisRun goroutines) :
    runStart fp (ticks ++ [{ goroutines := some goroutines, currentTime := T }]) = none := by
  rw [runStart_append]
  simp [runStep, h]

theorem runStart_continue (fp : StackArray) (run : List HangingSample)
    (hrun : ∀ s ∈ run, ∃ gs, s.goroutines = some gs ∧ fp ∈ idsPresentOnThisRun gs)
    (T0 : Time) (start : Option Time) (hs : start = some T0) :
    run.foldl (runStep fp) start = some T0 := by
  induction run generalizing start with
  | nil => exact hs
  | cons s rest ih =>
    obtain ⟨gs, hgs, hin⟩ := hrun s (List.mem_cons_self _ _)
    rw [List.foldl_cons]
    apply ih (fun s' hs' => hrun s' (List.mem_cons_of_mem _ hs'))
    simp [runStep, hgs, hin, hs]

/-- The run of `fp` starts at the first of the successive successful samples
that all hold `fp`, when no run was going on before them. -/
theorem runStart_unbroken (fp : StackArray) (before : List HangingSample)
    (first : HangingSample) (rest : List HangingSample)
    (hbefore : runStart fp before = none)
    (hrun : ∀ s ∈ first :: rest, ∃ gs, s.goroutines = some gs ∧ fp ∈ idsPresentOnThisRun gs) :
    runStart fp (before ++ first :: rest) = some first.currentTime := by
  obtain ⟨gs, hgs, hin⟩ := hrun first (List.mem_cons_self _ _)
  unfold runStart at hbefore ⊢
  rw [List.foldl_append, hbefore, List.foldl_cons]
  apply runStart_continue fp rest (fun s hs => hrun s (List.mem_cons_of_mem _ hs))
  simp [runStep, hgs, hin]

theorem hangingTick_eq (gd : GoDumpService) (g : DumpGoroutineConfigs)
    (hg : gd.configs.GoroutineDumpConfigs = some g) (m : Records)
    (goroutines : List StackRecord) (T : Time) :
    hangingTick gd m goroutines T =
      some (((observeAll T m goroutines).filter
              (fun e => decide (e.1 ∈ idsPresentOnThisRun goroutines))).map
                (fun e => (e.1, markChange T e.2)),
            (if ((((observeAll T m goroutines).filter
                (fun e => decide (e.1 ∈ idsPresentOnThisRun goroutines))).filter
                (fun e => tooLong T (durationMs g.GoroutineHangingTimeMs) e.2)).map
                  Prod.snd).length > 0
             then [Call.TakeGoroutineDump
                (((((observeAll T m goroutines).filter
                  (fun e => decide (e.1 ∈ idsPresentOnThisRun goroutines))).filter
                  (fun e => tooLong T (durationMs g.GoroutineHangingTimeMs) e.2)).map
                    Prod.snd))]
             else [])) := by
  unfold hangingTick
  simp only [collect_eq_filter, classify_eq gd.configs g hg]
  split <;> rfl

/-- The map between the deletions and the last loop of a tick, key by key. -/
theorem collected_get (m : Records) (ticks : List HangingSample) (hinv : TrackerInv m ticks)
    (goroutines : List StackRecord) (T : Time) (k : StackArray) :
    (k ∉ idsPresentOnThisRun goroutines →
      Records.get ((observeAll T m goroutines).filter
        (fun e => decide (e.1 ∈ idsPresentOnThisRun goroutines))) k = none) ∧
    (k ∈ idsPresentOnThisRun goroutines →
      ∃ r, Records.get ((observeAll T m goroutines).filter
          (fun e => decide (e.1 ∈ idsPresentOnThisRun goroutines))) k = some r ∧
        r.CurrentStacks.Stack0 = k ∧ r.LastChange = (runStart k ticks).getD T ∧
        (r.LastStacks ≠ r.CurrentStacks → r.LastChange = T)) := by
  have hget := Records.get_filter_key (observeAll T m goroutines)
    (fun key => decide (key ∈ idsPresentOnThisRun goroutines)) k
  constructor
  · intro hk
    rw [hget]
    simp [hk]
  · intro hk
    rw [hget, observeAll_get]
    simp only [hk, decide_True, if_true]
    cases h0 : Records.get m k with
    | none =>
      obtain ⟨r, hr, hc, hl, -⟩ := foldl_observeKey_none T k goroutines hk
      refine ⟨r, hr, hc, ?_, fun _ => hl⟩
      rw [hinv.2.2 k h0]
      exact hl
    | some r0 =>
      obtain ⟨hc0, hrun⟩ := hinv.2.1 k r0 h0
      obtain ⟨r, hr, hc, hl, hs⟩ := foldl_observeKey_some T k goroutines r0 hc0
      refine ⟨r, hr, hc, ?_, fun hne => absurd (hs hk).1 hne⟩
      rw [hrun, hl]
      rfl

theorem markChange_CurrentStacks (T : Time) (r : GoStackAnalyzerRecord) :
    (markChange T r).CurrentStacks = r.CurrentStacks := by
  unfold markChange
  split <;> rfl

theorem markChange_LastChange (T : Time) (r : GoStackAnalyzerRecord)
    (h : r.LastStacks ≠ r.CurrentStacks → r.LastChange = T) :
    (markChange T r).LastChange = r.LastChange := by
  unfold markChange compareStacks
  by_cases hc : r.LastStacks = r.CurrentStacks
  · simp [hc]
  · simp [hc, h hc]

/-- One successful tick keeps the invariant of the tracker. -/
theorem hangingTick_inv (gd : GoDumpService) (g : DumpGoroutineConfigs)
    (hg : gd.configs.GoroutineDumpConfigs = some g) (m : Records)
    (ticks : List HangingSample) (hinv : TrackerInv m ticks)
    (goroutines : List StackRecord) (T : Time) :
    ∃ m' out, hangingTick gd m goroutines T = some (m', out) ∧
      TrackerInv m' (ticks ++ [{ goroutines := some goroutines, currentTime := T }]) := by
  refine ⟨_, _, hangingTick_eq gd g hg m goroutines T, ?_, ?_, ?_⟩
  · have h1 := observeAll_nodup T goroutines m hinv.1
    have h2 : (((observeAll T m goroutines).filter
        (fun e => decide (e.1 ∈ idsPresentOnThisRun goroutines))).map Prod.fst).Nodup :=
      h1.sublist ((List.filter_sublist _).map Prod.fst)
    simpa [List.map_map, Function.comp_def] using h2
  · intro k r hr
    rw [Records.get_map_snd] at hr
    obtain ⟨ha, hb⟩ := collected_get m ticks hinv goroutines T k
    rw [runStart_append]
    by_cases hk : k ∈ idsPresentOnThisRun goroutines
    · obtain ⟨r2, hr2, hc, hl, hs⟩ := hb hk
      rw [hr2] at hr
      simp only [Option.map_some', Option.some.injEq] at hr
      subst hr
      refine ⟨by rw [markChange_CurrentStacks]; exact hc, ?_⟩
      rw [markChange_LastChange T r2 hs, hl]
      simp [runStep, hk]
    · rw [ha hk] at hr
      simp at hr
  · intro k hr
    rw [Records.get_map_snd] at hr
    obtain ⟨ha, hb⟩ := collected_get m ticks hinv goroutines T k
    rw [runStart_append]
    by_cases hk : k ∈ idsPresentOnThisRun goroutines
    · obtain ⟨r2, hr2, -⟩ := hb hk
      rw [hr2] at hr
      simp at hr
    · simp [runStep, hk]

theorem TrackerInv_nil : TrackerInv [] [] :=
  ⟨List.nodup_nil, fun _ _ h => by simp [Records.get] at h, fun _ _ => rfl⟩

/-- A run of ticks keeps the invariant of the tracker, and returns. -/
theorem hangingLoop_inv (gd : GoDumpService) (g : DumpGoroutineConfigs)
    (hg : gd.configs.GoroutineDumpConfigs = some g) (hist : List HangingSample) :
    ∀ (m : Records) (ticks : List HangingSample), TrackerInv m ticks →
      ∃ m' calls, hangingLoop gd m (hist.map Select.tick) = some (m', calls) ∧
        TrackerInv m' (ticks ++ hist) := by
  induction hist with
  | nil =>
    intro m ticks hinv
    exact ⟨m, [], rfl, by simpa using hinv⟩
  | cons sample rest ih =>
    intro m ticks hinv
    have hstep : ∃ m1 out, hangingStep gd m sample = some (m1, out) ∧
        TrackerInv m1 (ticks ++ [sample]) := by
      obtain ⟨gs, T⟩ := sample
      cases gs with
      | none =>
        refine ⟨m, [], rfl, hinv.1, ?_, ?_⟩
        · intro k r hr
          rw [runStart_append]
          exact hinv.2.1 k r hr
        · intro k hr
          rw [runStart_append]
          exact hinv.2.2 k hr
      | some goroutines => exact hangingTick_inv gd g hg m ticks hinv goroutines T
    obtain ⟨m1, out, h1, hinv1⟩ := hstep
    obtain ⟨m2, later, h2, hinv2⟩ := ih m1 (ticks ++ [sample]) hinv1
    refine ⟨m2, out ++ later, ?_, by simpa using hinv2⟩
    simp only [List.map_cons, hangingLoop, h1, h2]

theorem tooLong_iff (T : Time) (ms : Int) (r : GoStackAnalyzerRecord) :
    tooLong T (durationMs ms) r = true ↔
      r.LastStacks = r.CurrentStacks ∧ T - r.LastChange > durationMs ms := by
  unfold tooLong compareStacks
  rw [Bool.and_eq_true, decide_eq_true_eq, decide_eq_true_eq, Time.Sub_gt_durationMs]

theorem mem_call_iff (hanging : List GoStackAnalyzerRecord) (r : GoStackAnalyzerRecord) :
    (∃ h, Call.TakeGoroutineDump h ∈
        (if hanging.length > 0 then [Call.TakeGoroutineDump hanging] else []) ∧ r ∈ h) ↔
      r ∈ hanging := by
  constructor
  · rintro ⟨h, hin, hr⟩
    split at hin
    · simp only [List.mem_singleton, Call.TakeGoroutineDump.injEq] at hin
      exact hin ▸ hr
    · simp at hin
  · intro hr
    have : hanging.length > 0 := List.length_pos_of_mem hr
    exact ⟨hanging, by simp [this], hr⟩

/-- The report of the hanging tracker in terms of the duration that line 293
compares with, the `int64` product
`time.Duration(GoroutineHangingTimeMs) * time.Millisecond`, when that product
is above 0: after any ticks `hist` from the empty map, a record for `fp` is in
the hanging set of one more successful tick at `T` if and only if `fp` is in
its sample and `T - T0` is strictly greater than that duration, `T0` being the
start of the current run of `fp`. -/
theorem hanging_report_duration (gd : GoDumpService) (g : DumpGoroutineConfigs)
    (hg : gd.configs.GoroutineDumpConfigs = some g)
    (hd : 0 < durationMs g.GoroutineHangingTimeMs)
    (hist : List HangingSample) (goroutines : List StackRecord) (T : Time)
    (fp : StackArray) :
    ∃ m calls m' out,
      WatchGoroutinesHanging gd (hist.map Select.tick) = some (m, calls) ∧
      hangingTick gd m goroutines T = some (m', out) ∧
      ((∃ hanging r, Call.TakeGoroutineDump hanging ∈ out ∧ r ∈ hanging ∧
          r.CurrentStacks.Stack0 = fp) ↔
        (fp ∈ idsPresentOnThisRun goroutines ∧
          ∃ T0, runStart fp (hist ++ [{ goroutines := some goroutines, currentTime := T }]) =
              some T0 ∧
            T - T0 > durationMs g.GoroutineHangingTimeMs)) := by
  obtain ⟨m, calls, hloop, hinv⟩ := hangingLoop_inv gd g hg hist [] [] TrackerInv_nil
  simp only [List.nil_append] at hinv
  refine ⟨m, calls, _, _, hloop, hangingTick_eq gd g hg m goroutines T, ?_⟩
  have hnd : (((observeAll T m goroutines).filter
      (fun e => decide (e.1 ∈ idsPresentOnThisRun goroutines))).map Prod.fst).Nodup :=
    (observeAll_nodup T goroutines m hinv.1).sublist ((List.filter_sublist _).map Prod.fst)
  have hrun : runStart fp (hist ++ [{ goroutines := some goroutines, currentTime := T }]) =
      if fp ∈ idsPresentOnThisRun goroutines then some ((runStart fp hist).getD T)
      else none := by
    rw [runStart_append]
    rfl
  constructor
  · rintro ⟨hanging, r, hin, hr, hfp⟩
    have hr' := (mem_call_iff _ r).1 ⟨hanging, hin, hr⟩
    obtain ⟨⟨k, r2⟩, he, rfl⟩ := List.mem_map.1 hr'
    obtain ⟨hmem, hlong⟩ := List.mem_filter.1 he
    have hget := Records.get_of_mem _ hnd k r2 hmem
    obtain ⟨ha, hb⟩ := collected_get m hist hinv goroutines T k
    have hk : k ∈ idsPresentOnThisRun goroutines := by
      by_contra hk
      rw [ha hk] at hget
      cases hget
    obtain ⟨r3, hr3, hc, hl, -⟩ := hb hk
    rw [hget] at hr3
    cases hr3
    have hkfp : k = fp := hc.symm.trans hfp
    subst hkfp
    refine ⟨hk, r2.LastChange, ?_, ((tooLong_iff T _ r2).1 hlong).2⟩
    rw [hrun, if_pos hk, hl]
  · rintro ⟨hk, T0, hT0, hgt⟩
    obtain ⟨-, hb⟩ := collected_get m hist hinv goroutines T fp
    obtain ⟨r, hr, hc, hl, hs⟩ := hb hk
    rw [hrun, if_pos hk, ← hl] at hT0
    cases hT0
    have heq : r.LastStacks = r.CurrentStacks := by
      by_contra hne
      rw [hs hne, sub_self] at hgt
      exact lt_asymm hd hgt
    have hlong : tooLong T (durationMs g.GoroutineHangingTimeMs) r = true :=
      (tooLong_iff T _ r).2 ⟨heq, hgt⟩
    have hmem : r ∈ (((observeAll T m goroutines).filter
        (fun e => decide (e.1 ∈ idsPresentOnThisRun goroutines))).filter
        (fun e => tooLong T (durationMs g.GoroutineHangingTimeMs) e.2)).map Prod.snd :=
      List.mem_map.2 ⟨(fp, r), List.mem_filter.2 ⟨Records.mem_of_get _ fp r hr, hlong⟩, rfl⟩
    obtain ⟨hanging, hin, hr2⟩ := (mem_call_iff _ r).2 hmem
    exact ⟨hanging, r, hin, hr2, hc⟩

/-- C2 as stated fails: the dwell time `GoroutineHangingTimeMs = 9223372036855`
is above 0, but its product with `time.Millisecond` does not fit an `int64`
and wraps to a negative duration. The configuration is accepted and `Start`
starts the hanging watcher on it. A goroutine seen at the ticks 0 s and 1 s is
then reported at the second tick, one second after its run started; and a
fingerprint held by two goroutines of the first sample is reported at that
only tick. -/
theorem hanging_report_overflow :
    (0 : Int) < overflowDwell.GoroutineHangingTimeMs ∧
    durationMs overflowDwell.GoroutineHangingTimeMs = -9223372036854551616 ∧
    NewGoDumpService (some overflowDwellConfig) =
      some (some { configs := overflowDwellConfig }, none) ∧
    GoDumpService.Start { configs := overflowDwellConfig } (Except.ok fourGiB) =
      some ([Watcher.WatchGoroutinesHanging], none) ∧
    WatchGoroutinesHanging { configs := overflowDwellConfig }
      [Select.tick { goroutines := some [sleeperA], currentTime := 0 },
       Select.tick { goroutines := some [sleeperA], currentTime := 1000000000 }] =
      some ([(sleeperA.Stack0,
              { LastStacks := sleeperA, CurrentStacks := sleeperA,
                CurrentMesure := 1000000000, LastChange := 0 })],
            [Call.TakeGoroutineDump
              [{ LastStacks := sleeperA, CurrentStacks := sleeperA,
                 CurrentMesure := 1000000000, LastChange := 0 }]]) ∧
    runStart sleeperA.Stack0
      [{ goroutines := some [sleeperA], currentTime := 0 },
       { goroutines := some [sleeperA], currentTime := 1000000000 }] = some 0 ∧
    ¬ ((1000000000 : Int) - 0 > overflowDwell.GoroutineHangingTimeMs * 1000000) ∧
    WatchGoroutinesHanging { configs := overflowDwellConfig }
      [Select.tick { goroutines := some [sleeperA, sleeperA], currentTime := 0 }] =
      some ([(sleeperA.Stack0,
              { LastStacks := sleeperA, CurrentStacks := sleeperA,
                CurrentMesure := 0, LastChange := 0 })],
            [Call.TakeGoroutineDump
              [{ LastStacks := sleeperA, CurrentStacks := sleeperA,
                 CurrentMesure := 0, LastChange := 0 }]]) := by
  refine ⟨by decide, by decide, ?_, ?_, by decide, by decide, by decide, by decide⟩
  · simp [NewGoDumpService, heapChecks, goroutineChecks, overflowDwellConfig, overflowDwell]
  · simp [GoDumpService.Start, getAvailableMemory, startHeap, startGoroutine,
      overflowDwellConfig, overflowDwell, fourGiB]

/-- C2, amended: run the hanging tracker from the empty map over any ticks
`hist`, and then over one more successful tick with the sample `goroutines` at
the time `T`, with a dwell time `GoroutineHangingTimeMs` above 0 and at most
9223372036854 ms, so that its nanoseconds fit a `time.Duration`. The run
returns, and a record for the fingerprint `fp` is in the hanging set handed to
the stack report at `T` if and only if `fp` is in the sample at `T` and
`T - T0` is strictly greater than the dwell time, `T0` being the first tick of
the unbroken run of samples holding `fp` that ends at `T`. -/
theorem hanging_report_bounded (gd : GoDumpService) (g : DumpGoroutineConfigs)
    (hg : gd.configs.GoroutineDumpConfigs = some g)
    (hpos : 0 < g.GoroutineHangingTimeMs)
    (hfit : g.GoroutineHangingTimeMs ≤ 9223372036854)
    (hist : List HangingSample) (goroutines : List StackRecord) (T : Time)
    (fp : StackArray) :
    ∃ m calls m' out,
      WatchGoroutinesHanging gd (hist.map Select.tick) = some (m, calls) ∧
      hangingTick gd m goroutines T = some (m', out) ∧
      ((∃ hanging r, Call.TakeGoroutineDump hanging ∈ out ∧ r ∈ hanging ∧
          r.CurrentStacks.Stack0 = fp) ↔
        (fp ∈ idsPresentOnThisRun goroutines ∧
          ∃ T0, runStart fp (hist ++ [{ goroutines := some goroutines, currentTime := T }]) =
              some T0 ∧
            T - T0 > g.GoroutineHangingTimeMs * 1000000)) := by
  have heq := durationMs_eq g.GoroutineHangingTimeMs (le_of_lt hpos) hfit
  have hd : 0 < durationMs g.GoroutineHangingTimeMs := by
    rw [heq]
    exact Int.mul_pos hpos (by decide)
  have h := hanging_report_duration gd g hg hd hist goroutines T fp
  rw [heq] at h
  exact h

/-- C2, amended, on the run of `TestGoroutineHangingTriggerFile`: two sleeping
goroutines, a dwell time of ten seconds, a sample every five seconds. At the
fourth tick the first goroutine has been seen for fifteen seconds and is
reported. -/
theorem hanging_report_bounded_witness :
    ∃ m calls m' out,
      WatchGoroutinesHanging { configs := hangingConfig }
        ([({ goroutines := some [sleeperA, sleeperB], currentTime := 5000000000 } : HangingSample),
          { goroutines := some [sleeperA, sleeperB], currentTime := 10000000000 },
          { goroutines := some [sleeperA, sleeperB], currentTime := 15000000000 }].map
            Select.tick) = some (m, calls) ∧
      hangingTick { configs := hangingConfig } m [sleeperA, sleeperB] 20000000000 =
        some (m', out) ∧
      ∃ hanging r, Call.TakeGoroutineDump hanging ∈ out ∧ r ∈ hanging ∧
        r.CurrentStacks.Stack0 = sleeperA.Stack0 := by
  obtain ⟨m, calls, m', out, h1, h2, h3⟩ :=
    hanging_report_bounded { configs := hangingConfig }
      { GoroutineThreshold := 0, GoroutineHangingTimeMs := 10000, GoroutineDumpPrefix := none }
      rfl (by decide) (by decide)
      [{ goroutines := some [sleeperA, sleeperB], currentTime := 5000000000 },
       { goroutines := some [sleeperA, sleeperB], currentTime := 10000000000 },
       { goroutines := some [sleeperA, sleeperB], currentTime := 15000000000 }]
      [sleeperA, sleeperB] 20000000000 sleeperA.Stack0
  exact ⟨m, calls, m', out, h1, h2, h3.2 ⟨by decide, 5000000000, by decide, by decide⟩⟩

theorem markChange_eq_of_same (T : Time) (r : GoStackAnalyzerRecord)
    (h : r.LastStacks = r.CurrentStacks) : markChange T r = r := by
  simp [markChange, compareStacks, h]

theorem markChange_same_iff (T : Time) (r : GoStackAnalyzerRecord) :
    (markChange T r).LastStacks = (markChange T r).CurrentStacks ↔
      r.LastStacks = r.CurrentStacks := by
  unfold markChange
  split <;> rfl

theorem hangingSection_ne_nil (g : DumpGoroutineConfigs) (env : DumpEnv)
    (hanging : List GoStackAnalyzerRecord) :
    hangingSection g env hanging ≠ [] ↔ hanging ≠ [] := by
  unfold hangingSection
  cases hanging with
  | nil => simp
  | cons r rest => simp

/-- C3 as stated fails: with the sampling interval equal to the dwell time (one
second each), a goroutine inserted at the first tick and seen unchanged at the
second, exactly one dwell time later, is kept with `LastStacks` equal to
`CurrentStacks` and `T - LastChange >= dwell`, and no stack report is
requested. -/
theorem hanging_at_exact_dwell :
    WatchGoroutinesHanging { configs := equalDwellConfig }
      [Select.tick { goroutines := some [sleeperA], currentTime := 0 },
       Select.tick { goroutines := some [sleeperA], currentTime := 1000000000 }] =
      some ([(sleeperA.Stack0,
              { LastStacks := sleeperA, CurrentStacks := sleeperA,
                CurrentMesure := 1000000000, LastChange := 0 })], []) ∧
    (1000000000 : Int) - 0 ≥ durationMs 1000 := by
  decide

/-- C3, amended: at every successful tick `T` of the hanging tracker, from any
map, the hanging set is exactly the set of kept records with `LastStacks`
equal to `CurrentStacks` and `T - LastChange` strictly greater than the dwell
time (the comparison is `>`); a stack report is requested, with that set, if
and only if the set is not empty, and the report has a hanging section exactly
then; so a kept record with `T - LastChange` equal to the dwell time is not
reported at that tick. -/
theorem hanging_set_strict (gd : GoDumpService) (g : DumpGoroutineConfigs)
    (hg : gd.configs.GoroutineDumpConfigs = some g) (m : Records)
    (goroutines : List StackRecord) (T : Time) :
    ∃ m' hanging,
      hangingTick gd m goroutines T =
        some (m', if hanging.length > 0 then [Call.TakeGoroutineDump hanging] else []) ∧
      (∀ r, r ∈ hanging ↔ ∃ k, (k, r) ∈ m' ∧ r.LastStacks = r.CurrentStacks ∧
        T - r.LastChange > durationMs g.GoroutineHangingTimeMs) ∧
      (∀ env, hangingSection g env hanging ≠ [] ↔ hanging ≠ []) ∧
      (∀ k r, (k, r) ∈ m' → T - r.LastChange = durationMs g.GoroutineHangingTimeMs →
        r ∉ hanging) := by
  have hiff : ∀ r, r ∈ ((((observeAll T m goroutines).filter
        (fun e => decide (e.1 ∈ idsPresentOnThisRun goroutines))).filter
        (fun e => tooLong T (durationMs g.GoroutineHangingTimeMs) e.2)).map Prod.snd) ↔
      ∃ k, (k, r) ∈ ((observeAll T m goroutines).filter
          (fun e => decide (e.1 ∈ idsPresentOnThisRun goroutines))).map
            (fun e => (e.1, markChange T e.2)) ∧
        r.LastStacks = r.CurrentStacks ∧
        T - r.LastChange > durationMs g.GoroutineHangingTimeMs := by
    intro r
    constructor
    · intro hr
      obtain ⟨⟨k, r2⟩, he, rfl⟩ := List.mem_map.1 hr
      obtain ⟨hmem, hlong⟩ := List.mem_filter.1 he
      obtain ⟨h1, h2⟩ := (tooLong_iff T _ r2).1 hlong
      refine ⟨k, List.mem_map.2 ⟨(k, r2), hmem, ?_⟩, h1, h2⟩
      simp [markChange_eq_of_same T r2 h1]
    · rintro ⟨k, hmem, h1, h2⟩
      obtain ⟨⟨k2, r2⟩, hmem2, heq⟩ := List.mem_map.1 hmem
      simp only [Prod.mk.injEq] at heq
      obtain ⟨-, rfl⟩ := heq
      have h1' := (markChange_same_iff T r2).1 h1
      rw [markChange_eq_of_same T r2 h1'] at h2
      exact List.mem_map.2 ⟨(k2, r2), List.mem_filter.2 ⟨hmem2,
        (tooLong_iff T _ r2).2 ⟨h1', h2⟩⟩, by simp [markChange_eq_of_same T r2 h1']⟩
  refine ⟨_, _, hangingTick_eq gd g hg m goroutines T, hiff, ?_, ?_⟩
  · intro env
    exact hangingSection_ne_nil g env _
  · intro k r _ heq hr
    have := ((hiff r).1 hr).choose_spec.2.2
    rw [heq] at this
    exact lt_irrefl _ this

/-- C3, amended, on the run of the hanging test after three ticks: at the
fourth tick both sleeping goroutines are in the hanging set. -/
theorem hanging_set_strict_witness :
    ∃ m' hanging,
      hangingTick { configs := hangingConfig }
        [(sleeperA.Stack0, { LastStacks := sleeperA, CurrentStacks := sleeperA,
                             CurrentMesure := 15000000000, LastChange := 5000000000 }),
         (sleeperB.Stack0, { LastStacks := sleeperB, CurrentStacks := sleeperB,
                             CurrentMesure := 15000000000, LastChange := 5000000000 })]
        [sleeperA, sleeperB] 20000000000 =
        some (m', if hanging.length > 0 then [Call.TakeGoroutineDump hanging] else []) ∧
      (∀ r, r ∈ hanging ↔ ∃ k, (k, r) ∈ m' ∧ r.LastStacks = r.CurrentStacks ∧
        20000000000 - r.LastChange > durationMs 10000) := by
  obtain ⟨m', hanging, h1, h2, -⟩ :=
    hanging_set_strict { configs := hangingConfig }
      { GoroutineThreshold := 0, GoroutineHangingTimeMs := 10000, GoroutineDumpPrefix := none }
      rfl
      [(sleeperA.Stack0, { LastStacks := sleeperA, CurrentStacks := sleeperA,
                           CurrentMesure := 15000000000, LastChange := 5000000000 }),
       (sleeperB.Stack0, { LastStacks := sleeperB, CurrentStacks := sleeperB,
                           CurrentMesure := 15000000000, LastChange := 5000000000 })]
      [sleeperA, sleeperB] 20000000000
  exact ⟨m', hanging, h1, h2⟩

/-! ### The first observation of a fingerprint -/

theorem markChange_LastStacks (T : Time) (r : GoStackAnalyzerRecord) :
    (markChange T r).LastStacks = r.LastStacks := by
  unfold markChange
  split <;> rfl

theorem markChange_CurrentMesure (T : Time) (r : GoStackAnalyzerRecord) :
    (markChange T r).CurrentMesure = r.CurrentMesure := by
  unfold markChange
  split <;> rfl

theorem ids_count_cons (k : StackArray) (stack : StackRecord) (rest : List StackRecord) :
    (idsPresentOnThisRun (stack :: rest)).count k =
      (idsPresentOnThisRun rest).count k + if stack.Stack0 = k then 1 else 0 := by
  simp [idsPresentOnThisRun, List.count_cons]

/-- The entry the loop of lines 254-275 leaves for a key that had none. -/
theorem foldl_observeKey_first (T : Time) (k : StackArray) (s : List StackRecord)
    (h : k ∈ idsPresentOnThisRun s) :
    ∃ r, s.foldl (observeKey T k) none = some r ∧ r.CurrentStacks.Stack0 = k ∧
      r.CurrentMesure = T ∧ r.LastChange = T ∧
      ((idsPresentOnThisRun s).count k = 1 → r.LastStacks = StackRecord.zero) ∧
      (1 < (idsPresentOnThisRun s).count k → r.LastStacks = r.CurrentStacks) := by
  induction s with
  | nil => simp [idsPresentOnThisRun] at h
  | cons stack rest ih =>
    by_cases hk : stack.Stack0 = k
    · have hstep : observeKey T k none stack = some (insertedRecord T stack) := by
        simp [observeKey, hk]
      have hcount := ids_count_cons k stack rest
      rw [if_pos hk] at hcount
      by_cases hin : k ∈ idsPresentOnThisRun rest
      · obtain ⟨r, hr, hc, hl, hs⟩ :=
          foldl_observeKey_some T k rest (insertedRecord T stack) hk
        refine ⟨r, by rw [List.foldl_cons, hstep, hr], hc, (hs hin).2, hl, ?_, ?_⟩
        · intro h1
          have : 0 < (idsPresentOnThisRun rest).count k := List.count_pos_iff.2 hin
          omega
        · intro _
          exact (hs hin).1
      · refine ⟨insertedRecord T stack, ?_, hk, rfl, rfl, fun _ => rfl, ?_⟩
        · rw [List.foldl_cons, hstep, foldl_observeKey_absent T k rest _ hin]
        · intro h1
          have : (idsPresentOnThisRun rest).count k = 0 := List.count_eq_zero.2 hin
          omega
    · have hstep : observeKey T k none stack = none := by
        simp [observeKey, hk]
      have hcount := ids_count_cons k stack rest
      rw [if_neg hk, Nat.add_zero] at hcount
      simp only [idsPresentOnThisRun, List.map_cons, List.mem_cons] at h
      rcases h with h | h
      · exact absurd h.symm hk
      · obtain ⟨r, hr, hc⟩ := ih h
        refine ⟨r, by rw [List.foldl_cons, hstep, hr], ?_⟩
        rw [hcount]
        exact hc

/-- C11 as stated fails: a fingerprint that is new to the map and is held by
two goroutines of the sample gets a record whose `LastStacks` is the
fingerprint itself, not the zero value. -/
theorem first_observation_twice :
    hangingTick { configs := hangingConfig } [] [sleeperA, sleeperA] 5000000000 =
      some ([(sleeperA.Stack0,
              { LastStacks := sleeperA, CurrentStacks := sleeperA,
                CurrentMesure := 5000000000, LastChange := 5000000000 })], []) ∧
    sleeperA ≠ StackRecord.zero := by
  decide

/-- C11, amended: at every successful tick at the time `T`, for every
fingerprint `fp` that occurs in the sample and was absent from the map before
the tick, the record stored under `fp` after the tick has `CurrentStacks` equal
to `fp`, `CurrentMesure = T` and `LastChange = T`; its `LastStacks` is the zero
value when `fp` occurs once in the sample, and is `fp` when it occurs more than
once. -/
theorem first_observation (gd : GoDumpService) (g : DumpGoroutineConfigs)
    (hg : gd.configs.GoroutineDumpConfigs = some g) (m : Records)
    (goroutines : List StackRecord) (T : Time) (fp : StackArray)
    (habsent : Records.get m fp = none) (hin : fp ∈ idsPresentOnThisRun goroutines) :
    ∃ m' out r, hangingTick gd m goroutines T = some (m', out) ∧
      Records.get m' fp = some r ∧
      r.CurrentStacks = { Stack0 := fp } ∧ r.CurrentMesure = T ∧ r.LastChange = T ∧
      ((idsPresentOnThisRun goroutines).count fp = 1 → r.LastStacks = StackRecord.zero) ∧
      (1 < (idsPresentOnThisRun goroutines).count fp → r.LastStacks = { Stack0 := fp }) := by
  obtain ⟨r, hr, hc, hm, hl, h1, h2⟩ := foldl_observeKey_first T fp goroutines hin
  have hcur : r.CurrentStacks = { Stack0 := fp } := StackRecord.eq_of_Stack0 _ _ hc
  refine ⟨_, _, markChange T r, hangingTick_eq gd g hg m goroutines T, ?_, ?_, ?_, ?_, ?_, ?_⟩
  · rw [Records.get_map_snd,
      Records.get_filter_key (observeAll T m goroutines)
        (fun key => decide (key ∈ idsPresentOnThisRun goroutines)) fp,
      observeAll_get, habsent, hr]
    simp [hin]
  · rw [markChange_CurrentStacks, hcur]
  · rw [markChange_CurrentMesure, hm]
  · rw [markChange_LastChange T r (fun _ => hl), hl]
  · intro h
    rw [markChange_LastStacks, h1 h]
  · intro h
    rw [markChange_LastStacks, h2 h, hcur]

/-- C11, amended, on the first tick of the hanging test: the two sleeping
goroutines have different stacks, and the record of the first one starts from
the zero value. -/
theorem first_observation_witness :
    ∃ m' out r, hangingTick { configs := hangingConfig } [] [sleeperA, sleeperB] 5000000000 =
        some (m', out) ∧
      Records.get m' sleeperA.Stack0 = some r ∧
      r.CurrentStacks = sleeperA ∧ r.CurrentMesure = 5000000000 ∧
      r.LastChange = 5000000000 ∧ r.LastStacks = StackRecord.zero := by
  obtain ⟨m', out, r, h1, h2, h3, h4, h5, h6, -⟩ :=
    first_observation { configs := hangingConfig }
      { GoroutineThreshold := 0, GoroutineHangingTimeMs := 10000, GoroutineDumpPrefix := none }
      rfl [] [sleeperA, sleeperB] 5000000000 sleeperA.Stack0 rfl (by decide)
  exact ⟨m', out, r, h1, h2, h3, h4, h5, h6 (by decide)⟩

/-! ### The keys of the map after a tick -/

theorem foldl_observeKey_isSome (T : Time) (k : StackArray) (s : List StackRecord)
    (h : k ∈ idsPresentOnThisRun s) (entry : Option GoStackAnalyzerRecord) :
    ∃ r, s.foldl (observeKey T k) entry = some r := by
  induction s generalizing entry with
  | nil => simp [idsPresentOnThisRun] at h
  | cons stack rest ih =>
    rw [List.foldl_cons]
    by_cases hin : k ∈ idsPresentOnThisRun rest
    · exact ih hin _
    · rw [foldl_observeKey_absent T k rest _ hin]
      simp only [idsPresentOnThisRun, List.map_cons, List.mem_cons] at h hin
      rcases h with h | h
      · cases entry <;> simp [observeKey, h.symm]
      · exact absurd h hin

theorem collected_keys (T : Time) (m : Records) (goroutines : List StackRecord)
    (k : StackArray) :
    k ∈ (((observeAll T m goroutines).filter
        (fun e => decide (e.1 ∈ idsPresentOnThisRun goroutines))).map
          (fun e => (e.1, markChange T e.2))).map Prod.fst ↔
      k ∈ idsPresentOnThisRun goroutines := by
  have hkeys : (((observeAll T m goroutines).filter
        (fun e => decide (e.1 ∈ idsPresentOnThisRun goroutines))).map
          (fun e => (e.1, markChange T e.2))).map Prod.fst =
      ((observeAll T m goroutines).filter
        (fun e => decide (e.1 ∈ idsPresentOnThisRun goroutines))).map Prod.fst := by
    simp [List.map_map, Function.comp_def]
  rw [hkeys]
  have hget := Records.get_filter_key (observeAll T m goroutines)
    (fun key => decide (key ∈ idsPresentOnThisRun goroutines)) k
  constructor
  · intro hk
    by_contra hn
    have : Records.get ((observeAll T m goroutines).filter
        (fun e => decide (e.1 ∈ idsPresentOnThisRun goroutines))) k = none := by
      rw [hget]
      simp [hn]
    exact (Records.get_eq_none_iff _ k).1 this hk
  · intro hk
    by_contra hn
    have hnone := (Records.get_eq_none_iff _ k).2 hn
    rw [hget, observeAll_get] at hnone
    obtain ⟨r, hr⟩ := foldl_observeKey_isSome T k goroutines hk (Records.get m k)
    rw [hr] at hnone
    simp [hk] at hnone

/-- C12: after every successful tick of the hanging tracker the keys of the
map are exactly the fingerprints of the sample of that tick: a key is kept
only if the sample holds it, and every sampled fingerprint is a key. A Go map
holds a key once; whenever the map before the tick does, so does the map after
it, however many sampled goroutines share a fingerprint, and its keys are the
distinct fingerprints of the sample, in some order. -/
theorem hangingTick_keys (gd : GoDumpService) (g : DumpGoroutineConfigs)
    (hg : gd.configs.GoroutineDumpConfigs = some g) (m : Records)
    (goroutines : List StackRecord) (T : Time) :
    ∃ m' out, hangingTick gd m goroutines T = some (m', out) ∧
      (∀ k, k ∈ m'.map Prod.fst ↔ k ∈ idsPresentOnThisRun goroutines) ∧
      ((m.map Prod.fst).Nodup →
        (m'.map Prod.fst).Nodup ∧
        (m'.map Prod.fst).Perm (idsPresentOnThisRun goroutines).dedup) := by
  refine ⟨_, _, hangingTick_eq gd g hg m goroutines T,
    fun k => collected_keys T m goroutines k, ?_⟩
  intro hnd
  have h1 := observeAll_nodup T goroutines m hnd
  have h2 : (((observeAll T m goroutines).filter
      (fun e => decide (e.1 ∈ idsPresentOnThisRun goroutines))).map Prod.fst).Nodup :=
    h1.sublist ((List.filter_sublist _).map Prod.fst)
  have h3 : ((((observeAll T m goroutines).filter
        (fun e => decide (e.1 ∈ idsPresentOnThisRun goroutines))).map
          (fun e => (e.1, markChange T e.2))).map Prod.fst).Nodup := by
    simpa [List.map_map, Function.comp_def] using h2
  refine ⟨h3, ?_⟩
  rw [List.perm_ext_iff_of_nodup h3 (List.nodup_dedup _)]
  intro k
  rw [collected_keys, List.mem_dedup]

/-- C12, on a sample of three goroutines, two of them with the same stack,
from the empty map: the map after the tick has two keys. -/
theorem hangingTick_keys_witness :
    ∃ m' out, hangingTick { configs := hangingConfig } [] [sleeperA, sleeperB, sleeperA]
        5000000000 = some (m', out) ∧
      (m'.map Prod.fst).Nodup ∧
      (m'.map Prod.fst).Perm [sleeperB.Stack0, sleeperA.Stack0] := by
  obtain ⟨m', out, h1, -, h3⟩ :=
    hangingTick_keys { configs := hangingConfig }
      { GoroutineThreshold := 0, GoroutineHangingTimeMs := 10000, GoroutineDumpPrefix := none }
      rfl [] [sleeperA, sleeperB, sleeperA] 5000000000
  exact ⟨m', out, h1, (h3 List.nodup_nil).1, (h3 List.nodup_nil).2⟩

/-! ### The timestamps of the records -/

theorem observeKey_time (T : Time) (k : StackArray) (entry : Option GoStackAnalyzerRecord)
    (stack : StackRecord)
    (h : ∀ r0, entry = some r0 → r0.LastChange ≤ r0.CurrentMesure ∧ r0.CurrentMesure ≤ T) :
    ∀ r, observeKey T k entry stack = some r →
      r.LastChange ≤ r.CurrentMesure ∧ r.CurrentMesure ≤ T := by
  intro r hr
  unfold observeKey at hr
  by_cases hk : stack.Stack0 = k
  · rw [if_pos hk] at hr
    cases entry with
    | none =>
      simp only [Option.some.injEq] at hr
      subst hr
      exact ⟨le_refl _, le_refl _⟩
    | some r0 =>
      simp only [Option.some.injEq] at hr
      subst hr
      obtain ⟨h1, h2⟩ := h r0 rfl
      exact ⟨le_trans h1 h2, le_refl _⟩
  · rw [if_neg hk] at hr
    exact h r hr

theorem foldl_observeKey_time (T : Time) (k : StackArray) (s : List StackRecord)
    (entry : Option GoStackAnalyzerRecord)
    (h : ∀ r0, entry = some r0 → r0.LastChange ≤ r0.CurrentMesure ∧ r0.CurrentMesure ≤ T) :
    ∀ r, s.foldl (observeKey T k) entry = some r →
      r.LastChange ≤ r.CurrentMesure ∧ r.CurrentMesure ≤ T := by
  induction s generalizing entry with
  | nil => exact h
  | cons stack rest ih =>
    rw [List.foldl_cons]
    exact ih _ (observeKey_time T k entry stack h)

theorem foldl_observeKey_mesure (T : Time) (k : StackArray) (s : List StackRecord)
    (hin : k ∈ idsPresentOnThisRun s) (entry : Option GoStackAnalyzerRecord) :
    ∀ r, s.foldl (observeKey T k) entry = some r → r.CurrentMesure = T := by
  induction s generalizing entry with
  | nil => simp [idsPresentOnThisRun] at hin
  | cons stack rest ih =>
    intro r hr
    rw [List.foldl_cons] at hr
    by_cases hrest : k ∈ idsPresentOnThisRun rest
    · exact ih hrest _ r hr
    · rw [foldl_observeKey_absent T k rest _ hrest] at hr
      simp only [idsPresentOnThisRun, List.map_cons, List.mem_cons] at hin hrest
      rcases hin with hin | hin
      · cases entry with
        | none =>
          simp only [observeKey, hin.symm, if_true, Option.some.injEq] at hr
          subst hr
          rfl
        | some r0 =>
          simp only [observeKey, hin.symm, if_true, Option.some.injEq] at hr
          subst hr
          rfl
      · exact absurd hin hrest

theorem TimeInv_mono (m : Records) (T T' : Time) (h : TimeInv m T) (hle : T ≤ T') :
    TimeInv m T' :=
  fun k r hr => ⟨(h k r hr).1, le_trans (h k r hr).2 hle⟩

/-- One successful tick at a time no earlier than the last one keeps the
order of the timestamps. -/
theorem hangingTick_time (gd : GoDumpService) (g : DumpGoroutineConfigs)
    (hg : gd.configs.GoroutineDumpConfigs = some g) (m : Records) (Tprev : Time)
    (hinv : TimeInv m Tprev) (goroutines : List StackRecord) (T : Time) (hle : Tprev ≤ T) :
    ∃ m' out, hangingTick gd m goroutines T = some (m', out) ∧ TimeInv m' T := by
  refine ⟨_, _, hangingTick_eq gd g hg m goroutines T, ?_⟩
  intro k r' hr'
  rw [Records.get_map_snd,
    Records.get_filter_key (observeAll T m goroutines)
      (fun key => decide (key ∈ idsPresentOnThisRun goroutines)) k, observeAll_get] at hr'
  by_cases hk : k ∈ idsPresentOnThisRun goroutines
  · simp only [hk, decide_True, if_true] at hr'
    cases hfold : goroutines.foldl (observeKey T k) (Records.get m k) with
    | none => simp [hfold] at hr'
    | some r =>
      rw [hfold] at hr'
      simp only [Option.map_some', Option.some.injEq] at hr'
      subst hr'
      have htime := foldl_observeKey_time T k goroutines (Records.get m k)
        (fun r0 h0 => (TimeInv_mono m Tprev T hinv hle) k r0 h0) r hfold
      have hmes := foldl_observeKey_mesure T k goroutines hk (Records.get m k) r hfold
      unfold markChange
      split
      · exact htime
      · exact ⟨by simp [hmes], htime.2⟩
  · simp [hk] at hr'

theorem getLastD_cons_map (sample : HangingSample) (rest : List HangingSample) (T : Time) :
    ((sample :: rest).map (fun s => s.currentTime)).getLastD T =
      (rest.map (fun s => s.currentTime)).getLastD sample.currentTime := by
  simp [List.getLastD]
  cases rest <;> rfl

/-- A run of ticks at non-decreasing times keeps the order of the
timestamps. -/
theorem hangingLoop_time (gd : GoDumpService) (g : DumpGoroutineConfigs)
    (hg : gd.configs.GoroutineDumpConfigs = some g) (hist : List HangingSample) :
    ∀ (m : Records) (Tprev : Time), TimeInv m Tprev →
      (∀ s ∈ hist, Tprev ≤ s.currentTime) →
      (hist.map (fun s => s.currentTime)).Pairwise (fun a b => a ≤ b) →
      ∃ m' calls, hangingLoop gd m (hist.map Select.tick) = some (m', calls) ∧
        TimeInv m' ((hist.map (fun s => s.currentTime)).getLastD Tprev) := by
  induction hist with
  | nil =>
    intro m Tprev hinv _ _
    exact ⟨m, [], rfl, hinv⟩
  | cons sample rest ih =>
    intro m Tprev hinv hlow hsorted
    have hle : Tprev ≤ sample.currentTime := hlow sample (List.mem_cons_self _ _)
    have hstep : ∃ m1 out, hangingStep gd m sample = some (m1, out) ∧
        TimeInv m1 sample.currentTime := by
      cases hgs : sample.goroutines with
      | none =>
        exact ⟨m, [], by simp [hangingStep, hgs], TimeInv_mono m Tprev _ hinv hle⟩
      | some goroutines =>
        obtain ⟨m1, out, h1, h2⟩ :=
          hangingTick_time gd g hg m Tprev hinv goroutines sample.currentTime hle
        exact ⟨m1, out, by simp [hangingStep, hgs, h1], h2⟩
    obtain ⟨m1, out, h1, hinv1⟩ := hstep
    simp only [List.map_cons, List.pairwise_cons] at hsorted
    obtain ⟨m2, later, h2, hinv2⟩ := ih m1 sample.currentTime hinv1
      (fun s hs => hsorted.1 s.currentTime (List.mem_map.2 ⟨s, hs, rfl⟩)) hsorted.2
    refine ⟨m2, out ++ later, ?_, ?_⟩
    · simp only [List.map_cons, hangingLoop, h1, h2]
    · rw [getLastD_cons_map]
      exact hinv2

/-- C13: run the hanging tracker from the empty map over ticks, successful or
skipped, whose times never decrease. After every tick, at the time `T`, every
record `r` of the map has `r.LastChange <= r.CurrentMesure <= T`. -/
theorem tracker_timestamps (gd : GoDumpService) (g : DumpGoroutineConfigs)
    (hg : gd.configs.GoroutineDumpConfigs = some g)
    (hist : List HangingSample) (last : HangingSample)
    (hsorted : ((hist ++ [last]).map (fun s => s.currentTime)).Pairwise (fun a b => a ≤ b)) :
    ∃ m calls,
      WatchGoroutinesHanging gd ((hist ++ [last]).map Select.tick) = some (m, calls) ∧
      ∀ k r, (k, r) ∈ m →
        r.LastChange ≤ r.CurrentMesure ∧ r.CurrentMesure ≤ last.currentTime := by
  obtain ⟨m, calls, hloop, hinv⟩ :=
    hangingLoop_inv gd g hg (hist ++ [last]) [] [] TrackerInv_nil
  have hfirst : ∃ T0 : Time, ∀ s ∈ hist ++ [last], T0 ≤ s.currentTime := by
    cases hh : hist ++ [last] with
    | nil => exact ⟨0, fun s hs => by simp at hs⟩
    | cons first rest =>
      rw [hh] at hsorted
      simp only [List.map_cons, List.pairwise_cons] at hsorted
      refine ⟨first.currentTime, fun s hs => ?_⟩
      rcases List.mem_cons.1 hs with rfl | hs
      · exact le_refl _
      · exact hsorted.1 s.currentTime (List.mem_map.2 ⟨s, hs, rfl⟩)
  obtain ⟨T0, hT0⟩ := hfirst
  obtain ⟨m2, calls2, hloop2, htime⟩ :=
    hangingLoop_time gd g hg (hist ++ [last]) [] T0
      (fun k r hr => by simp [Records.get] at hr) hT0 hsorted
  have hsame : m2 = m := by
    rw [hloop] at hloop2
    simp only [Option.some.injEq, Prod.mk.injEq] at hloop2
    exact hloop2.1.symm
  subst hsame
  refine ⟨m2, calls, hloop, ?_⟩
  intro k r hmem
  have hget := Records.get_of_mem m2 hinv.1 k r hmem
  have hlast : ((hist ++ [last]).map (fun s => s.currentTime)).getLastD T0 =
      last.currentTime := by
    rw [List.map_append, List.map_singleton]
    exact List.getLastD_concat _ _ _
  rw [hlast] at htime
  exact htime k r hget

/-- C13, on the run of the hanging test: four ticks five seconds apart, the
third one skipped. -/
theorem tracker_timestamps_witness :
    ∃ m calls,
      WatchGoroutinesHanging { configs := hangingConfig }
        (([({ goroutines := some [sleeperA, sleeperB], currentTime := 5000000000 } :
              HangingSample),
           { goroutines := some [sleeperA, sleeperB], currentTime := 10000000000 },
           { goroutines := none, currentTime := 15000000000 }] ++
          [({ goroutines := some [sleeperA], currentTime := 20000000000 } :
              HangingSample)]).map Select.tick) =
        some (m, calls) ∧
      ∀ k r, (k, r) ∈ m → r.LastChange ≤ r.CurrentMesure ∧ r.CurrentMesure ≤ 20000000000 := by
  have h := tracker_timestamps { configs := hangingConfig }
    { GoroutineThreshold := 0, GoroutineHangingTimeMs := 10000, GoroutineDumpPrefix := none }
    rfl
    [{ goroutines := some [sleeperA, sleeperB], currentTime := 5000000000 },
     { goroutines := some [sleeperA, sleeperB], currentTime := 10000000000 },
     { goroutines := none, currentTime := 15000000000 }]
    { goroutines := some [sleeperA], currentTime := 20000000000 }
    (by decide)
  exact h

/-! ### Validation and the choice of the watchers -/

/-- C14 fails on the code: a configuration with goroutine monitoring on, a
goroutine threshold of -1 and no dwell time is accepted by `NewGoDumpService`,
and `Start` succeeds on it without starting any watcher; so does one with heap
monitoring on, no bytes threshold and the percentage -0.5. -/
theorem accepted_without_watcher :
    (negativeThresholdConfig.GoDumpGoroutine = true ∧
      NewGoDumpService (some negativeThresholdConfig) =
        some (some { configs := negativeThresholdConfig }, none) ∧
      GoDumpService.Start { configs := negativeThresholdConfig } (Except.ok fourGiB) =
        some ([], none)) ∧
    (negativePercentageConfig.GoDumpHeap = true ∧
      NewGoDumpService (some negativePercentageConfig) =
        some (some { configs := negativePercentageConfig }, none) ∧
      GoDumpService.Start { configs := negativePercentageConfig } (Except.ok fourGiB) =
        some ([], none)) := by
  refine ⟨⟨rfl, ?_, ?_⟩, ⟨rfl, ?_, ?_⟩⟩
  · simp [NewGoDumpService, heapChecks, goroutineChecks, negativeThresholdConfig]
  · simp [GoDumpService.Start, getAvailableMemory, startHeap, startGoroutine,
      negativeThresholdConfig, fourGiB]
  · simp [NewGoDumpService, heapChecks, goroutineChecks, negativePercentageConfig,
      Float64.eq, Float64.gt, Float64.zero, Float64.one]
    norm_num
  · simp [GoDumpService.Start, getAvailableMemory, startHeap, startGoroutine,
      negativePercentageConfig, fourGiB, Float64.gt, Float64.zero]

theorem Float64.gt_zero_of_le (x : Float64) (h0 : Float64.le Float64.zero x = true)
    (hne : Float64.eq x Float64.zero = false) : Float64.gt x Float64.zero = true := by
  cases x with
  | nan => simp [Float64.le, Float64.zero] at h0
  | negInf => simp [Float64.le, Float64.zero] at h0
  | posInf => simp [Float64.gt, Float64.zero]
  | fin q =>
    simp only [Float64.le, Float64.zero, decide_eq_true_eq] at h0
    simp only [Float64.eq, Float64.zero, decide_eq_false_iff_not] at hne
    simp only [Float64.gt, Float64.zero, decide_eq_true_eq]
    exact lt_of_le_of_ne h0 (Ne.symm hne)

/-- Where validation and `Start` do agree: for an accepted configuration on
which `Start` succeeds, an enabled heap monitor whose percentage is not
negative (and not a NaN) has a heap watcher, and an enabled goroutine monitor
whose two thresholds are not negative has a goroutine watcher. -/
theorem Start_watcher_of_nonnegative (c : GoDumpConfigs) (r : Option GoDumpService)
    (hacc : NewGoDumpService (some c) = some (r, none))
    (sysinfo : Except String Sysinfo_t) (ws : List Watcher)
    (hs : GoDumpService.Start { configs := c } sysinfo = some (ws, none)) :
    (c.GoDumpHeap = true → ∀ b, c.HeapDumpConfigs = some b →
      Float64.le Float64.zero b.HeapThresholdPercentage = true →
      (Watcher.WatchHeapBytes ∈ ws ∨ ∃ a, Watcher.WatchHeapPercentage a ∈ ws)) ∧
    (c.GoDumpGoroutine = true → ∀ g, c.GoroutineDumpConfigs = some g →
      0 ≤ g.GoroutineThreshold → 0 ≤ g.GoroutineHangingTimeMs →
      (Watcher.WatchGoroutines ∈ ws ∨ Watcher.WatchGoroutinesHanging ∈ ws)) := by
  obtain ⟨-, -, -, hheap, hgor, -, -⟩ := NewGoDumpService_ok c r hacc
  obtain ⟨hw, gw, hh, hg, rfl⟩ := Start_ok { configs := c } sysinfo ws hs
  obtain ⟨a1, a2, -⟩ := startHeap_mem_bytes _ _ _ hh
  obtain ⟨b1, b2, -⟩ := startGoroutine_mem _ _ hg
  constructor
  · intro hb b hc hle
    by_cases hz : b.HeapThresholdBytes = 0
    · right
      have hne : Float64.eq b.HeapThresholdPercentage Float64.zero = false := by
        by_contra hcon
        simp only [Bool.not_eq_false] at hcon
        simp [heapChecks, hb, hc, hz, hcon] at hheap
      obtain ⟨a, ha⟩ := a2.2 ⟨hb, b, hc, Float64.gt_zero_of_le _ hle hne⟩
      exact ⟨a, List.mem_append.2 (Or.inl ha)⟩
    · left
      exact List.mem_append.2 (Or.inl (a1.2 ⟨hb, b, hc, Nat.pos_of_ne_zero hz⟩))
  · intro hb g hc h1 h2
    by_cases hz : g.GoroutineThreshold = 0
    · right
      have hne : g.GoroutineHangingTimeMs ≠ 0 := by
        intro hcon
        simp [goroutineChecks, hb, hc, hz, hcon] at hgor
      exact List.mem_append.2 (Or.inr (b2.2 ⟨hb, g, hc, lt_of_le_of_ne h2 (Ne.symm hne)⟩))
    · left
      exact List.mem_append.2 (Or.inr (b1.2 ⟨hb, g, hc, lt_of_le_of_ne h1 (Ne.symm hz)⟩))

end GoDump
